import Mathlib

/-!
Shallow embedding of the PlatformAdmin reconciler
(pkg/controller/platformadmin/platformadmin_controller.go).

Cluster objects (ConfigMap / Service / YurtAppSet) are modelled as records
carrying exactly the fields the controller reads or writes.  Owner
references are modelled as the list of owning parents' UIDs, following the
data model of the design document ("ownership back-reference: a relation
recorded on a child resource pointing to its owning parent(s)"); the
controller-runtime helpers SetOwnerReference / SetControllerReference /
RemoveFinalizer / AddFinalizer are library code outside this repository and
are modelled from that spec as add-if-absent / remove operations on that
list.  API calls are modelled as succeeding, except the delete-path patch
calls, which take an explicit per-object success oracle so that patch
failures are statable.  JSON decoding of the two override annotations is
performed by encoding/json (outside the repository); an annotation value is
modelled as its decode result (absent key, decoded list, or decode error).
-/

namespace PA

/-- Label value stamped on generated ConfigMaps (constant LabelConfigmap). -/
def LabelConfigmap : String := "Configmap"

/-- Label value stamped on generated Services (constant LabelService). -/
def LabelService : String := "Service"

/-- Label value stamped on generated YurtAppSets (constant LabelDeployment). -/
def LabelDeployment : String := "Deployment"

/-- Modelled from the spec: iotv1alpha2.PlatformAdminFinalizer (the finalizer
marker string) is declared in the API package, which is not part of the
sources; only its identity matters here. -/
def platformAdminFinalizer : String := "platformadmin"

/-- A pool-membership entry of a YurtAppSet topology
(appsv1alpha1.Pool: name, replicas, node-selector values). -/
structure Pool where
  name : String
  replicas : Nat
  selectorValues : List String
deriving DecidableEq, Repr

/-- A catalog ConfigMap template (corev1.ConfigMap from the static catalog:
name plus opaque payload). -/
structure CMTemplate where
  name : String
  data : String
deriving DecidableEq, Repr

/-- A stored ConfigMap child resource. -/
structure ConfigMapT where
  name : String
  data : String
  genLabel : Option String
  owners : List String
deriving DecidableEq, Repr

/-- A stored Service child resource.  topoAnnotated models the fixed
topology-routing annotation set at creation. -/
structure ServiceT where
  name : String
  spec : String
  genLabel : Option String
  topoAnnotated : Bool
  owners : List String
deriving DecidableEq, Repr

/-- A stored YurtAppSet child resource: spec topology pools plus the status
fields the controller reads (Status.PoolReplicas key set, ReadyReplicas,
Replicas).  The status fields are written only by the external workload-set
controller, never by this reconciler. -/
structure YurtAppSetT where
  name : String
  genLabel : Option String
  selectorApp : String
  deploySpec : String
  pools : List Pool
  owners : List String
  statusPools : List String
  statusReadyReplicas : Nat
  statusReplicas : Nat
deriving DecidableEq, Repr

/-- The two condition types maintained by the normal pass. -/
inductive CondType where
  | configmapAvailable
  | componentAvailable
deriving DecidableEq, Repr

/-- A status condition (type, boolean status, reason, message). -/
structure PACondition where
  ctype : CondType
  status : Bool
  reason : String
  message : String
deriving DecidableEq, Repr

/-- PlatformAdmin status. -/
structure PAStatus where
  initialized : Bool
  ready : Bool
  readyComponentNum : Nat
  unreadyComponentNum : Nat
  conditions : List PACondition
deriving DecidableEq, Repr

/-- An additional workload template decoded from the AdditionalDeployments
annotation (iotv1alpha1.DeploymentTemplateSpec: name + opaque spec). -/
structure DeploymentTemplate where
  name : String
  spec : String
deriving DecidableEq, Repr

/-- An additional exposure template decoded from the AdditionalServices
annotation (iotv1alpha1.ServiceTemplateSpec: name + opaque spec). -/
structure ServiceTemplate where
  name : String
  spec : String
deriving DecidableEq, Repr

instance {ε α : Type} [DecidableEq ε] [DecidableEq α] : DecidableEq (Except ε α)
  | Except.error e, Except.error f =>
    if h : e = f then Decidable.isTrue (by subst h; rfl)
    else Decidable.isFalse (fun hc => by cases hc; exact h rfl)
  | Except.error _, Except.ok _ => Decidable.isFalse (fun hc => by cases hc)
  | Except.ok _, Except.error _ => Decidable.isFalse (fun hc => by cases hc)
  | Except.ok a, Except.ok b =>
    if h : a = b then Decidable.isTrue (by subst h; rfl)
    else Decidable.isFalse (fun hc => by cases hc; exact h rfl)

/-- The override annotation payload of a parent, as seen after JSON decode:
for each key, none = key absent, some (ok l) = well-formed value decoding to
l, some (error) = malformed value. -/
structure AnnotPayload where
  deployments : Option (Except Unit (List DeploymentTemplate))
  services : Option (Except Unit (List ServiceTemplate))
deriving DecidableEq, Repr

/-- The empty annotation payload (no override keys present). -/
def AnnotPayload.empty : AnnotPayload := { deployments := none, services := none }

/-- The parent PlatformAdmin resource: spec fields read by the reconciler,
annotations, deletion marker, finalizers and status. -/
structure PlatformAdmin where
  name : String
  uid : String
  version : String
  security : Bool
  poolName : String
  annots : AnnotPayload
  deletionRequested : Bool
  finalizers : List String
  status : PAStatus
deriving DecidableEq, Repr

/-- A resolved desired-state component (config.Component: name, optional
Deployment spec, optional Service spec; the specs are opaque payloads). -/
structure Component where
  name : String
  deployment : Option String
  service : Option String
deriving DecidableEq, Repr

/-- The version-keyed static catalogs
(config.PlatformAdminControllerConfiguration). -/
structure ControllerConfig where
  securityComponents : List (String × List Component)
  noSectyComponents : List (String × List Component)
  securityConfigMaps : List (String × List CMTemplate)
  noSectyConfigMaps : List (String × List CMTemplate)
deriving DecidableEq, Repr

/-- The cluster state visible to one reconcile pass: the parent object as
stored (none = not found) and the child resources of its namespace. -/
structure ClusterState where
  parent : Option PlatformAdmin
  configmaps : List ConfigMapT
  services : List ServiceT
  yurtappsets : List YurtAppSetT
deriving DecidableEq, Repr

/-- Modelled from the spec: controllerutil.SetOwnerReference /
SetControllerReference (library code) record the parent in the child's
ownership back-reference list; adding an already-recorded parent changes
nothing. -/
def addOwnerRef (uid : String) (owners : List String) : List String :=
  if owners.contains uid then owners else owners ++ [uid]

/-- The body of removeOwner (lines 532-549): find the first owner reference
whose UID is the parent's, replace it by the last entry and truncate
(the Go swap-with-last splice); none = parent not among the owners, in which
case removeOwner does nothing. -/
def removeOwnerRefs (uid : String) (owners : List String) : Option (List String) :=
  match owners.findIdx? (fun o => o == uid) with
  | none => none
  | some i => some ((owners.set i (owners.getLastD "")).dropLast)

/-- Go map lookup into a version-keyed catalog: a missing key yields the
empty (nil) slice, not an error. -/
def lookupCatalog {α : Type} (cat : List (String × List α)) (v : String) : List α :=
  match cat.find? (fun e => e.1 == v) with
  | none => []
  | some e => e.2

/-- The catalog half of desired-state resolution (lines 343-347 and 216-220):
select the security or non-security component list keyed by the version. -/
def catalogComponents (cfg : ControllerConfig) (p : PlatformAdmin) : List Component :=
  if p.security then lookupCatalog cfg.securityComponents p.version
  else lookupCatalog cfg.noSectyComponents p.version

/-- The merge half of annotationToComponent (lines 569-601), taking the two
decoded template lists.  Faithful to the Go (pre-1.22) range loops: both
loops store a pointer into the shared loop variable
(services[additionalservice.Name] = ampersand-of additionalservice.Spec and
component.Deployment = ampersand-of additionalDeployment.Spec), so by the
time any of those pointers is dereferenced - after the loops - every one of
them yields the LAST element's Spec.  The map over services is iterated in
key insertion order (Go map order is unspecified; no claim depends on it). -/
def mergeAnnotationComponents (deps : List DeploymentTemplate)
    (svcs : List ServiceTemplate) : List Component :=
  if deps.isEmpty && svcs.isEmpty then []
  else
    let lastDepSpec : Option String := (deps.getLast?).map (fun d => d.spec)
    let lastSvcSpec : Option String := (svcs.getLast?).map (fun s => s.spec)
    let svcNames : List String := (svcs.map (fun s => s.name)).eraseDups
    let depNames : List String := deps.map (fun d => d.name)
    let depComps : List Component := deps.map (fun d =>
      { name := d.name
        deployment := lastDepSpec
        service := if svcNames.contains d.name then lastSvcSpec else none })
    let usedCount : Nat := (svcNames.filter (fun n => depNames.contains n)).length
    if usedCount < svcNames.length then
      depComps ++ (svcNames.filter (fun n => !(depNames.contains n))).map (fun n =>
        { name := n, deployment := none, service := lastSvcSpec })
    else depComps

/-- Interpret one optional annotation value: absent key decodes to the empty
list (the Go code leaves the freshly made empty slice untouched). -/
def decodeOr {α : Type} (x : Option (Except Unit (List α))) :
    Except Unit (List α) :=
  match x with
  | none => Except.ok []
  | some r => r

/-- annotationToComponent (lines 553-602): decode the two override
annotations (a malformed value is a hard error) and merge. -/
def annotationToComponent (a : AnnotPayload) : Except Unit (List Component) :=
  match decodeOr a.deployments with
  | Except.error e => Except.error e
  | Except.ok deps =>
    match decodeOr a.services with
    | Except.error e => Except.error e
    | Except.ok svcs => Except.ok (mergeAnnotationComponents deps svcs)

/-- Desired-state resolution (lines 343-353, also 216-227): catalog list for
(securityMode, version) followed by the annotation-derived components. -/
def desiredComponents (cfg : ControllerConfig) (p : PlatformAdmin) :
    Except Unit (List Component) :=
  match annotationToComponent p.annots with
  | Except.error e => Except.error e
  | Except.ok adds => Except.ok (catalogComponents cfg p ++ adds)

/-- One Go range iteration of the pool swap-remove loop in reconcileDelete
(lines 242-247).  The range expression is evaluated once, fixing origLen and
the backing array; the body writes through the shared backing array
(pools[i] = pools[len(pools)-1]) and re-slices, so curLen tracks the current
slice length while iteration continues over the original index range.
none models the index-out-of-range panic pools[i] with i >= len(pools). -/
def removePoolsGo (pn : String) (backing : List Pool) (curLen i origLen : Nat) :
    Option (List Pool) :=
  if _h : i < origLen then
    match backing.get? i with
    | none => none
    | some pool =>
      if pool.name == pn then
        if i < curLen then
          match backing.get? (curLen - 1) with
          | none => none
          | some last => removePoolsGo pn (backing.set i last) (curLen - 1) (i + 1) origLen
        else none
      else removePoolsGo pn backing curLen (i + 1) origLen
  else some (backing.take curLen)
termination_by origLen - i

/-- The pool-membership removal of reconcileDelete (lines 242-247) on one
YurtAppSet's pool list. -/
def removePools (pn : String) (pools : List Pool) : Option (List Pool) :=
  removePoolsGo pn pools pools.length 0 pools.length

/-- Accessors (with their update laws) for a child-resource kind, so the
label-scoped ownership GC sweep shared by the three kinds is defined and
reasoned about once. -/
structure OwnedKind (α : Type) where
  name : α → String
  glabel : α → Option String
  owners : α → List String
  withOwners : α → List String → α
  name_withOwners : ∀ o ow, name (withOwners o ow) = name o
  glabel_withOwners : ∀ o ow, glabel (withOwners o ow) = glabel o
  owners_withOwners : ∀ o ow, owners (withOwners o ow) = ow

/-- ConfigMap as an owned kind. -/
def cmKind : OwnedKind ConfigMapT :=
  { name := fun c => c.name, glabel := fun c => c.genLabel,
    owners := fun c => c.owners,
    withOwners := fun c ow => { c with owners := ow },
    name_withOwners := fun _ _ => rfl, glabel_withOwners := fun _ _ => rfl,
    owners_withOwners := fun _ _ => rfl }

/-- Service as an owned kind. -/
def svcKind : OwnedKind ServiceT :=
  { name := fun c => c.name, glabel := fun c => c.genLabel,
    owners := fun c => c.owners,
    withOwners := fun c ow => { c with owners := ow },
    name_withOwners := fun _ _ => rfl, glabel_withOwners := fun _ _ => rfl,
    owners_withOwners := fun _ _ => rfl }

/-- YurtAppSet as an owned kind. -/
def yasKind : OwnedKind YurtAppSetT :=
  { name := fun c => c.name, glabel := fun c => c.genLabel,
    owners := fun c => c.owners,
    withOwners := fun c ow => { c with owners := ow },
    name_withOwners := fun _ _ => rfl, glabel_withOwners := fun _ _ => rfl,
    owners_withOwners := fun _ _ => rfl }

/-- Handling of one listed object by the ownership GC (removeOwner, lines
532-549, guarded by the label and desired-name checks of its call sites):
on a generated object whose name is not desired, drop the parent from the
owner list; delete the object when the list empties, persist the trimmed
list otherwise; an object not owned by the parent is left alone. -/
def gcObjectStep {α : Type} (K : OwnedKind α) (uid lblVal : String)
    (need : List String) (o : α) : Option α :=
  if K.glabel o == some lblVal && !(need.contains (K.name o)) then
    match removeOwnerRefs uid (K.owners o) with
    | none => some o
    | some [] => none
    | some ow => some (K.withOwners o ow)
  else some o

/-- One label-scoped GC sweep (lines 326-333, 430-448): list the generated
objects of one kind and apply removeOwner to each undesired one. -/
def gcSweep {α : Type} (K : OwnedKind α) (uid lblVal : String)
    (need : List String) (objs : List α) : List α :=
  objs.filterMap (gcObjectStep K uid lblVal need)

/-- CreateOrUpdate of one catalog ConfigMap (lines 310-324): when the object
exists, the mutate closure only ensures the ownership back-reference (the
fetched content wins); otherwise the catalog template is created with the
generate label and the parent as owner. -/
def upsertConfigmap (uid : String) (t : CMTemplate) (cms : List ConfigMapT) :
    List ConfigMapT :=
  if cms.any (fun c => c.name == t.name) then
    cms.map (fun c =>
      if c.name == t.name then { c with owners := addOwnerRef uid c.owners } else c)
  else
    cms ++ [{ name := t.name, data := t.data, genLabel := some LabelConfigmap,
              owners := [uid] }]

/-- The ConfigMap catalog keyed by (securityMode, version) (lines 305-309). -/
def catalogConfigMaps (cfg : ControllerConfig) (p : PlatformAdmin) : List CMTemplate :=
  if p.security then lookupCatalog cfg.securityConfigMaps p.version
  else lookupCatalog cfg.noSectyConfigMaps p.version

/-- reconcileConfigmap (lines 301-336): upsert every catalog ConfigMap, then
garbage-collect generated ConfigMaps that are no longer needed.  API errors
are out of scope of this model, so the boolean/err results are omitted. -/
def reconcileConfigmap (cfg : ControllerConfig) (p : PlatformAdmin)
    (cms : List ConfigMapT) : List ConfigMapT :=
  let ts := catalogConfigMaps cfg p
  let need := ts.map (fun t => t.name)
  gcSweep cmKind p.uid LabelConfigmap need
    (ts.foldl (fun acc t => upsertConfigmap p.uid t acc) cms)

/-- handleService (lines 453-486): nothing to do for a component without a
Service spec; otherwise CreateOrUpdate by name - an existing Service only
gets the ownership back-reference ensured, a fresh one is created with the
generate label and the topology-routing annotation. -/
def handleService (p : PlatformAdmin) (c : Component) (svcs : List ServiceT) :
    List ServiceT :=
  match c.service with
  | none => svcs
  | some spec =>
    if svcs.any (fun s => s.name == c.name) then
      svcs.map (fun s =>
        if s.name == c.name then { s with owners := addOwnerRef p.uid s.owners } else s)
    else
      svcs ++ [{ name := c.name, spec := spec, genLabel := some LabelService,
                 topoAnnotated := true, owners := [p.uid] }]

/-- The pool entry contributed by this parent: replicas 1 and a node-affinity
selector on its pool name (lines 400-409, 512-521). -/
def newPool (pn : String) : Pool :=
  { name := pn, replicas := 1, selectorValues := [pn] }

/-- handleYurtAppSet (lines 488-530): build and create a fresh YurtAppSet for
the component, with the deployment template spec taken from
*component.Deployment - when the component carries no Deployment spec this
dereferences a nil pointer, modelled as none. -/
def handleYurtAppSet (p : PlatformAdmin) (c : Component) : Option YurtAppSetT :=
  match c.deployment with
  | none => none
  | some d =>
    some { name := c.name, genLabel := some LabelDeployment, selectorApp := c.name,
           deploySpec := d, pools := [newPool p.poolName], owners := [p.uid],
           statusPools := [], statusReadyReplicas := 0, statusReplicas := 0 }

/-- The existing-YurtAppSet branch of reconcileComponent (lines 389-427):
when the status already lists the parent's pool, report readiness and leave
the object untouched; otherwise append the parent's pool entry unless an
entry with that pool name is already present, ensure the ownership
back-reference, and patch.  The second component is the readyDeployment
flag of that iteration. -/
def joinYurtAppSetPool (p : PlatformAdmin) (y : YurtAppSetT) : YurtAppSetT × Bool :=
  if y.statusPools.contains p.poolName then
    (y, y.statusReadyReplicas == y.statusReplicas)
  else
    ({ y with
        pools :=
          if y.pools.any (fun q => q.name == p.poolName) then y.pools
          else y.pools ++ [newPool p.poolName],
        owners := addOwnerRef p.uid y.owners }, false)

/-- Iterating the pool-join step of the synchronizer (used to state
pool-membership idempotence over repeated passes). -/
def joinIter (p : PlatformAdmin) : Nat → YurtAppSetT → YurtAppSetT
  | 0, y => y
  | Nat.succ n, y => joinIter p n (joinYurtAppSetPool p y).1

/-- One iteration of the component loop (lines 362-428) over the running
(services, yurtappsets, readyComponent) state: handle the Service, then
either create the YurtAppSet (readiness false this pass) or run the
join/readiness branch on the existing one.  none models the nil-pointer
panic inside handleYurtAppSet. -/
def componentStep (p : PlatformAdmin) (c : Component)
    (st : List ServiceT × List YurtAppSetT × Nat) :
    Option (List ServiceT × List YurtAppSetT × Nat) :=
  match st with
  | (svcs, yass, rdy) =>
    let svcs' := handleService p c svcs
    match yass.find? (fun y => y.name == c.name) with
    | none =>
      match handleYurtAppSet p c with
      | none => none
      | some y0 => some (svcs', yass ++ [y0], rdy)
    | some y =>
      some (svcs',
            yass.map (fun z => if z.name == c.name then (joinYurtAppSetPool p z).1 else z),
            if (joinYurtAppSetPool p y).2 then rdy + 1 else rdy)

/-- The component loop itself. -/
def componentLoop (p : PlatformAdmin) :
    List Component → (List ServiceT × List YurtAppSetT × Nat) →
    Option (List ServiceT × List YurtAppSetT × Nat)
  | [], st => some st
  | c :: rest, st =>
    match componentStep p c st with
    | none => none
    | some st' => componentLoop p rest st'

/-- Result of reconcileComponent: the new child sets, the ready/total counts
written to the status by the deferred closure (lines 357-360), the boolean
result, and whether the annotation decode failed. -/
structure ComponentOutcome where
  services : List ServiceT
  yurtappsets : List YurtAppSetT
  ready : Nat
  total : Nat
  ok : Bool
  decodeErr : Bool
deriving DecidableEq, Repr

/-- reconcileComponent (lines 338-451): resolve the desired components, run
the component loop, then garbage-collect undesired generated Services and
YurtAppSets.  On an annotation decode error the deferred counts still run,
over the catalog-only list (the append never executed).  none models the
nil-pointer panic. -/
def reconcileComponent (cfg : ControllerConfig) (p : PlatformAdmin)
    (svcs : List ServiceT) (yass : List YurtAppSetT) : Option ComponentOutcome :=
  let base := catalogComponents cfg p
  match annotationToComponent p.annots with
  | Except.error _ =>
    some { services := svcs, yurtappsets := yass, ready := 0, total := base.length,
           ok := false, decodeErr := true }
  | Except.ok adds =>
    let desired := base ++ adds
    let need := desired.map (fun c => c.name)
    match componentLoop p desired (svcs, yass, 0) with
    | none => none
    | some (svcs1, yass1, rdy) =>
      some { services := gcSweep svcKind p.uid LabelService need svcs1,
             yurtappsets := gcSweep yasKind p.uid LabelDeployment need yass1,
             ready := rdy, total := desired.length,
             ok := rdy == desired.length, decodeErr := false }

/-- Modelled from the spec: util.SetPlatformAdminCondition (utils package,
not among the sources) - "status conditions are monotonically replaced
(never appended) per condition type". -/
def setPACondition (st : PAStatus) (c : PACondition) : PAStatus :=
  { st with conditions :=
      if st.conditions.any (fun d => d.ctype == c.ctype) then
        st.conditions.map (fun d => if d.ctype == c.ctype then c else d)
      else st.conditions ++ [c] }

/-- Terminal outcome of a pass: success, success with the fixed 10-second
requeue, or hard error. -/
inductive RResult where
  | ok
  | requeue
  | err
deriving DecidableEq, Repr

/-- Modelled from the spec: controllerutil.AddFinalizer (library code) adds
the finalizer marker if absent. -/
def addFinalizer (p : PlatformAdmin) : PlatformAdmin :=
  { p with finalizers :=
      if p.finalizers.contains platformAdminFinalizer then p.finalizers
      else p.finalizers ++ [platformAdminFinalizer] }

/-- reconcileNormal (lines 263-299).  AddFinalizer mutates only the in-memory
object; it is persisted solely by the success-path client Update (the
deferred update touches only the status subresource).  Status.Initialized is
likewise set on the in-memory object but then overwritten by the deferred
status update with the pre-pass status copy, so it has no persistent effect.
The returned PAStatus is the platformAdminStatus copy handed to the deferred
status update. -/
def reconcileNormal (cfg : ControllerConfig) (p : PlatformAdmin) (s : ClusterState) :
    Option (ClusterState × PAStatus × RResult) :=
  let pMem := addFinalizer p
  let cms1 := reconcileConfigmap cfg p s.configmaps
  let st1 := setPACondition p.status
    { ctype := CondType.configmapAvailable, status := true, reason := "", message := "" }
  match reconcileComponent cfg p s.services s.yurtappsets with
  | none => none
  | some out =>
    let s' : ClusterState :=
      { s with configmaps := cms1, services := out.services,
               yurtappsets := out.yurtappsets }
    let stc := { st1 with readyComponentNum := out.ready,
                          unreadyComponentNum := out.total - out.ready }
    if out.decodeErr then
      some (s',
        setPACondition stc
          { ctype := CondType.componentAvailable, status := false,
            reason := "ComponentProvisioning", message := "decode error" },
        RResult.err)
    else if out.ok then
      let st2 :=
        { setPACondition stc
            { ctype := CondType.componentAvailable, status := true,
              reason := "", message := "" } with ready := true }
      some ({ s' with parent := some { p with finalizers := pMem.finalizers } },
            st2, RResult.ok)
    else
      some (s',
        setPACondition stc
          { ctype := CondType.componentAvailable, status := false,
            reason := "ComponentProvisioning", message := "" },
        RResult.requeue)

/-- The per-desired-component loop of reconcileDelete (lines 231-252): fetch
the YurtAppSet by the component's name (a failed Get just continues), run
the pool swap-remove loop, then patch; a failed patch aborts the pass with
an error (false), leaving earlier patches applied.  The patchOk oracle says
which patch calls succeed. -/
def reconcileDeleteLoop (pn : String) (patchOk : String → Bool) :
    List String → List YurtAppSetT → Option (List YurtAppSetT × Bool)
  | [], yass => some (yass, true)
  | n :: rest, yass =>
    match yass.find? (fun y => y.name == n) with
    | none => reconcileDeleteLoop pn patchOk rest yass
    | some y =>
      match removePools pn y.pools with
      | none => none
      | some pools' =>
        if patchOk n then
          reconcileDeleteLoop pn patchOk rest
            (yass.map (fun z => if z.name == n then { z with pools := pools' } else z))
        else some (yass, false)

/-- reconcileDelete (lines 212-261): recompute the desired components
(an annotation decode error aborts before any mutation), detach the parent's
pool membership from each desired YurtAppSet, then remove the finalizer and
persist the parent (an Update that does not touch the status subresource). -/
def reconcileDelete (cfg : ControllerConfig) (patchOk : String → Bool)
    (p : PlatformAdmin) (s : ClusterState) : Option (ClusterState × RResult) :=
  match desiredComponents cfg p with
  | Except.error _ => some (s, RResult.err)
  | Except.ok desired =>
    match reconcileDeleteLoop p.poolName patchOk (desired.map (fun c => c.name))
        s.yurtappsets with
    | none => none
    | some (yass', false) => some ({ s with yurtappsets := yass' }, RResult.err)
    | some (yass', true) =>
      let fins := p.finalizers.filter (fun f => !(f == platformAdminFinalizer))
      some ({ s with yurtappsets := yass',
                     parent := some { p with finalizers := fins } },
            RResult.ok)

/-- What one reconcile invocation produced: the cluster state on exit, the
terminal result, and whether the deferred status update was issued. -/
structure ReconcileOutcome where
  state : ClusterState
  result : RResult
  statusPersisted : Bool
deriving DecidableEq, Repr

/-- Reconcile (lines 171-210): fetch the parent (not-found is a clean no-op
with no status write); on a parent marked for deletion run reconcileDelete
with isDeleted set, which makes the deferred status update a no-op;
otherwise run reconcileNormal and always persist the resulting status copy
on exit.  Patch calls are modelled as succeeding here; none models a panic
(which skips the remaining pass). -/
def reconcile (cfg : ControllerConfig) (s : ClusterState) : Option ReconcileOutcome :=
  match s.parent with
  | none => some { state := s, result := RResult.ok, statusPersisted := false }
  | some p =>
    if p.deletionRequested then
      match reconcileDelete cfg (fun _ => true) p s with
      | none => none
      | some (s', r) => some { state := s', result := r, statusPersisted := false }
    else
      match reconcileNormal cfg p s with
      | none => none
      | some (s', st', r) =>
        some { state :=
                 { s' with parent := (s'.parent).map (fun q => { q with status := st' }) },
               result := r, statusPersisted := true }

/-- Owner lists mention the given UID at most once (the cluster invariant:
an object's ownerReferences never repeat a UID). -/
def ownersWFb (uid : String) (s : ClusterState) : Bool :=
  s.configmaps.all (fun c => decide (c.owners.count uid ≤ 1)) &&
  s.services.all (fun v => decide (v.owners.count uid ≤ 1)) &&
  s.yurtappsets.all (fun y => decide (y.owners.count uid ≤ 1))

/-- Each YurtAppSet carries at most one pool entry named pn (the documented
invariant: at most one pool entry per poolName per workload-set). -/
def poolsWFb (pn : String) (s : ClusterState) : Bool :=
  s.yurtappsets.all (fun y =>
    decide ((y.pools.filter (fun q => q.name == pn)).length ≤ 1))

/-- Workload-set names are unique in the cluster (k8s guarantees name
uniqueness per kind and namespace). -/
def yasNamesNodupb (s : ClusterState) : Bool :=
  decide ((s.yurtappsets.map (fun y => y.name)).Nodup)

/-- Well-formedness of a state relative to its parent. -/
def stateWFb (s : ClusterState) : Bool :=
  match s.parent with
  | none => true
  | some p => ownersWFb p.uid s && poolsWFb p.poolName s && yasNamesNodupb s

/-- Owner lists of a list of owned objects mention the UID at most once. -/
def ownersWFl {α : Type} (K : OwnedKind α) (uid : String) (objs : List α) : Prop :=
  ∀ o ∈ objs, (K.owners o).count uid ≤ 1

/-- The ConfigMap named nm is present and carries the parent among its
owners (the situation the upsert establishes). -/
def cmEstab (uid nm : String) (cms : List ConfigMapT) : Prop :=
  (cms.any (fun c => c.name == nm) = true) ∧
  ∀ c ∈ cms, (c.name == nm) = true → uid ∈ c.owners

/-- The Service side of a component is settled: either no Service spec, or
the Service exists and carries the parent among its owners. -/
def svcEstab (p : PlatformAdmin) (c : Component) (svcs : List ServiceT) : Prop :=
  c.service = none ∨
    ((svcs.any (fun s => s.name == c.name) = true) ∧
      ∀ s ∈ svcs, (s.name == c.name) = true → p.uid ∈ s.owners)

/-- The YurtAppSet side of a component is settled: one exists with the
component's name and the join step no longer mutates any of them. -/
def yasEstab (p : PlatformAdmin) (c : Component) (yass : List YurtAppSetT) : Prop :=
  (yass.any (fun y => y.name == c.name) = true) ∧
  ∀ z ∈ yass, (z.name == c.name) = true → (joinYurtAppSetPool p z).1 = z

/-- Both sides of a component are settled. -/
def compEstab (p : PlatformAdmin) (c : Component) (svcs : List ServiceT)
    (yass : List YurtAppSetT) : Prop :=
  svcEstab p c svcs ∧ yasEstab p c yass

/-- The readyDeployment contribution the loop reads for a component from the
current workload-set list. -/
def contribOf (p : PlatformAdmin) (c : Component) (yass : List YurtAppSetT) : Bool :=
  match yass.find? (fun y => y.name == c.name) with
  | none => false
  | some y => (joinYurtAppSetPool p y).2

/-- Total readyComponent count contributed by a component list against a
fixed workload-set list. -/
def countContrib (p : PlatformAdmin) (comps : List Component)
    (yass : List YurtAppSetT) : Nat :=
  (comps.filter (fun c => contribOf p c yass)).length

/-- Every pool entry named pn occurs at most once in each workload-set of
the list (the documented workload-set invariant). -/
def yassWF (pn : String) (yass : List YurtAppSetT) : Prop :=
  ∀ y ∈ yass, (y.pools.filter (fun q => q.name == pn)).length ≤ 1

/-- Every workload-set named nm in the list carries no pool entry named pn. -/
def yassClean (pn nm : String) (yass : List YurtAppSetT) : Prop :=
  ∀ y ∈ yass, (y.name == nm) = true → y.pools.filter (fun q => q.name == pn) = []

/-- The patched pool list written to every workload-set named n by one
delete-loop iteration. -/
def patchPools (n : String) (pools' : List Pool) (yass : List YurtAppSetT) :
    List YurtAppSetT :=
  yass.map (fun z => if z.name == n then { z with pools := pools' } else z)

/-- A condition slot is settled: an entry of the condition's type exists and
every entry of that type equals the condition (what setPACondition leaves
behind). -/
def condEstab (c : PACondition) (st : PAStatus) : Prop :=
  (st.conditions.any (fun d => d.ctype == c.ctype) = true) ∧
  ∀ d ∈ st.conditions, (d.ctype == c.ctype) = true → d = c

/-! Concrete fixtures used by witness theorems. -/

/-- An all-zero parent status. -/
def emptyStatus : PAStatus :=
  { initialized := false, ready := false, readyComponentNum := 0,
    unreadyComponentNum := 0, conditions := [] }

/-- A small concrete parent. -/
def pW : PlatformAdmin :=
  { name := "pa", uid := "u1", version := "v1", security := false,
    poolName := "pool-a", annots := AnnotPayload.empty,
    deletionRequested := false, finalizers := [], status := emptyStatus }

/-- A small concrete workload-set with no pools yet. -/
def yW : YurtAppSetT :=
  { name := "edgex", genLabel := some LabelDeployment, selectorApp := "edgex",
    deploySpec := "d", pools := [], owners := [], statusPools := [],
    statusReadyReplicas := 0, statusReplicas := 0 }

/-- A generated Service that is no longer desired, co-owned by two parents. -/
def svcStale : ServiceT :=
  { name := "stale", spec := "s", genLabel := some LabelService,
    topoAnnotated := true, owners := ["u1", "u2"] }

/-- A component carrying only an exposure spec, no workload spec. -/
def cNoDep : Component :=
  { name := "svc-only", deployment := none, service := some ("s") }

/-- A component carrying a workload spec. -/
def cDep : Component :=
  { name := "edgex", deployment := some ("d"), service := none }

/-- A catalog for the delete-pass witness. -/
def cfgDel : ControllerConfig :=
  { securityComponents := [],
    noSectyComponents := [("v1", [cDep])],
    securityConfigMaps := [], noSectyConfigMaps := [] }

/-- A deleting parent holding the finalizer. -/
def pDel : PlatformAdmin :=
  { pW with deletionRequested := true, finalizers := [platformAdminFinalizer] }

/-- A workload-set the parent had joined, shared with another parent. -/
def yDel : YurtAppSetT :=
  { yW with pools := [newPool ("pool-a"), newPool ("pool-b")],
            owners := ["u1", "u2"] }

/-- The cluster state for the delete-pass witness. -/
def sDel : ClusterState :=
  { parent := some pDel, configmaps := [], services := [], yurtappsets := [yDel] }

/-- A deleting parent's state with no workload-sets present. -/
def sDelEmpty : ClusterState :=
  { parent := some pDel, configmaps := [], services := [], yurtappsets := [] }

/-- A configuration with empty catalogs. -/
def cfgEmpty : ControllerConfig :=
  { securityComponents := [], noSectyComponents := [],
    securityConfigMaps := [], noSectyConfigMaps := [] }

/-- A normal (non-deleting) parent's state over an empty cluster. -/
def sNorm : ClusterState :=
  { parent := some pW, configmaps := [], services := [], yurtappsets := [] }

/-! General list lemmas used throughout. -/

theorem listMapId {α : Type} (l : List α) (f : α → α) (h : ∀ x ∈ l, f x = x) :
    l.map f = l := by
  induction l with
  | nil => rfl
  | cons a t ih =>
    simp only [List.map_cons]
    rw [h a (List.mem_cons_self a t), ih (fun x hx => h x (List.mem_cons_of_mem a hx))]

theorem listMapPointwise {α : Type} {l : List α} {f : α → α} (h : l.map f = l) :
    ∀ x ∈ l, f x = x := by
  induction l with
  | nil => intro x hx; cases hx
  | cons a t ih =>
    simp only [List.map_cons, List.cons.injEq] at h
    intro x hx
    rcases List.mem_cons.mp hx with h1 | h2
    · rw [h1]; exact h.1
    · exact ih h.2 x h2

theorem listFilterMapId {α : Type} (l : List α) (f : α → Option α)
    (h : ∀ x ∈ l, f x = some x) : l.filterMap f = l := by
  induction l with
  | nil => rfl
  | cons a t ih =>
    rw [List.filterMap_cons_some (h a (List.mem_cons_self a t)),
        ih (fun x hx => h x (List.mem_cons_of_mem a hx))]

theorem bool_eq_false {b : Bool} (h : ¬ b = true) : b = false := by
  cases b with
  | false => rfl
  | true => exact absurd rfl h

theorem countP_add_countP_not {α : Type} (p : α → Bool) (l : List α) :
    l.countP p + l.countP (fun a => !(p a)) = l.length := by
  induction l with
  | nil => rfl
  | cons a t ih =>
    by_cases h : p a = true
    · rw [List.countP_cons_of_pos _ _ h, List.countP_cons_of_neg]
      · simp only [List.length_cons]
        omega
      · simp [h]
    · have h2 : p a = false := by
        cases hb : p a with
        | false => rfl
        | true => exact absurd hb h
      rw [List.countP_cons_of_neg _ _ (by simp [h2]), List.countP_cons_of_pos]
      · simp only [List.length_cons]
        omega
      · simp [h2]

theorem getLastD_cons_indep {α : Type} (x : α) (t : List α) (a b : α) :
    (x :: t).getLastD a = (x :: t).getLastD b := by
  rw [List.getLastD_cons, List.getLastD_cons]

theorem getLastD_indep_aux {α : Type} (l : List α) (h : l ≠ []) (a b : α) :
    l.getLastD a = l.getLastD b := by
  cases l with
  | nil => exact absurd rfl h
  | cons x t => exact getLastD_cons_indep x t a b

/-! Lemmas about the ownership back-reference helpers. -/

theorem addOwnerRef_of_mem {uid : String} {l : List String}
    (h : uid ∈ l) : addOwnerRef uid l = l := by
  simp [addOwnerRef, h]

theorem addOwnerRef_mem (uid : String) (l : List String) :
    uid ∈ addOwnerRef uid l := by
  unfold addOwnerRef
  by_cases h : uid ∈ l
  · simp [h]
  · simp [h]

theorem addOwnerRef_idem (uid : String) (l : List String) :
    addOwnerRef uid (addOwnerRef uid l) = addOwnerRef uid l :=
  addOwnerRef_of_mem (addOwnerRef_mem uid l)

theorem count_addOwnerRef_le (uid : String) (l : List String)
    (h : l.count uid ≤ 1) : (addOwnerRef uid l).count uid ≤ 1 := by
  by_cases hc : uid ∈ l
  · rw [addOwnerRef_of_mem hc]; exact h
  · simp [addOwnerRef, hc, List.count_append, List.count_eq_zero.mpr hc]

/-- Unfolding of removeOwnerRefs on a cons cell: a head match swap-removes at
index 0, otherwise the head is kept in front of the recursive result. -/
theorem removeOwnerRefs_cons (uid o : String) (rest : List String) :
    removeOwnerRefs uid (o :: rest) =
      if o == uid then some ((o :: rest).set 0 ((o :: rest).getLastD "") |>.dropLast)
      else (removeOwnerRefs uid rest).map (fun ow => o :: ow) := by
  by_cases h : (o == uid) = true
  · simp [removeOwnerRefs, List.findIdx?_cons, h]
  · simp only [Bool.not_eq_true] at h
    simp only [removeOwnerRefs, List.findIdx?_cons, h, Bool.false_eq_true, if_false,
      List.findIdx?_succ]
    cases hf : List.findIdx? (fun x => x == uid) rest with
    | none => simp
    | some i =>
      have hne : rest ≠ [] := by
        intro hnil
        rw [hnil] at hf
        simp [List.findIdx?] at hf
      have hset : (o :: rest).set (i + 1) ((o :: rest).getLastD "") =
          o :: rest.set i (rest.getLastD "") := by
        rw [List.getLastD_cons]
        rw [getLastD_indep_aux rest hne o ""]
        rfl
      have hne2 : rest.set i (rest.getLastD "") ≠ [] := by
        intro hnil
        apply hne
        have hlen := congrArg List.length hnil
        simp only [List.length_set, List.length_nil] at hlen
        exact List.length_eq_zero.mp hlen
      simp only [Option.map_some']
      rw [hset, List.dropLast_cons_of_ne_nil hne2]

theorem getLastD_eq_getLast {α : Type} (l : List α) (h : l ≠ []) (a : α) :
    l.getLastD a = l.getLast h := by
  rw [List.getLastD_eq_getLast?, List.getLast?_eq_getLast l h]
  rfl

theorem removeOwnerRefs_of_not_mem {uid : String} {l : List String} (h : uid ∉ l) :
    removeOwnerRefs uid l = none := by
  induction l with
  | nil => rfl
  | cons o rest ih =>
    rw [removeOwnerRefs_cons]
    have ho : (o == uid) = false := by
      apply beq_eq_false_iff_ne.mpr
      intro he
      exact h (he ▸ List.mem_cons_self o rest)
    rw [ho]
    simp only [Bool.false_eq_true, if_false]
    rw [ih (fun hm => h (List.mem_cons_of_mem o hm))]
    rfl

/-- When the parent's UID occurs exactly once in the owner list, the
swap-with-last splice of removeOwner removes exactly that occurrence:
the result is the other owners, reordered. -/
theorem removeOwnerRefs_of_count_one {uid : String} {l : List String}
    (h : l.count uid = 1) :
    ∃ ow, removeOwnerRefs uid l = some ow ∧
      ow.Perm (l.filter (fun x => !(x == uid))) := by
  induction l with
  | nil => simp at h
  | cons o rest ih =>
    rw [removeOwnerRefs_cons]
    by_cases ho : o = uid
    · subst ho
      have hr : rest.count o = 0 := by
        rw [List.count_cons_self] at h
        omega
      have hmem : o ∉ rest := List.count_eq_zero.mp hr
      have hfilter : (o :: rest).filter (fun x => !(x == o)) = rest := by
        rw [List.filter_cons]
        simp only [beq_self_eq_true, Bool.not_true, Bool.false_eq_true, if_false]
        apply List.filter_eq_self.mpr
        intro x hx
        simp only [Bool.not_eq_eq_eq_not, Bool.not_true, beq_eq_false_iff_ne]
        intro he
        exact hmem (he ▸ hx)
      simp only [beq_self_eq_true, if_true]
      cases rest with
      | nil => exact ⟨[], rfl, by rw [hfilter]⟩
      | cons y u =>
        refine ⟨((y :: u).getLastD o) :: (y :: u).dropLast, ?_, ?_⟩
        · rw [List.getLastD_cons]
          have : (o :: y :: u).set 0 ((y :: u).getLastD o) =
              ((y :: u).getLastD o) :: y :: u := rfl
          rw [this, List.dropLast_cons_of_ne_nil (by simp)]
        · rw [hfilter]
          have hne : (y :: u) ≠ [] := by simp
          rw [getLastD_eq_getLast (y :: u) hne o]
          have hsplit : (y :: u).dropLast ++ [(y :: u).getLast hne] = y :: u :=
            List.dropLast_append_getLast hne
          have hp : (((y :: u).getLast hne) :: (y :: u).dropLast).Perm
              ((y :: u).dropLast ++ [(y :: u).getLast hne]) :=
            (List.perm_append_singleton _ _).symm
          rw [hsplit] at hp
          exact hp
    · have ho2 : (o == uid) = false := beq_eq_false_iff_ne.mpr ho
      rw [ho2]
      simp only [Bool.false_eq_true, if_false]
      have hrest : rest.count uid = 1 := by
        rw [List.count_cons_of_ne (fun he => ho he.symm)] at h
        exact h
      obtain ⟨ow, hw, hperm⟩ := ih hrest
      refine ⟨o :: ow, by rw [hw]; rfl, ?_⟩
      rw [List.filter_cons]
      simp only [ho2, Bool.not_false, if_true]
      exact hperm.cons o

/-- After a successful removeOwner splice on an owner list holding the UID
at most once, the UID is gone. -/
theorem removeOwnerRefs_some_not_mem {uid : String} {l ow : List String}
    (hc : l.count uid ≤ 1) (h : removeOwnerRefs uid l = some ow) : uid ∉ ow := by
  rcases Nat.lt_or_ge (l.count uid) 1 with h0 | h1
  · have : l.count uid = 0 := by omega
    rw [removeOwnerRefs_of_not_mem (List.count_eq_zero.mp this)] at h
    cases h
  · have hone : l.count uid = 1 := by omega
    obtain ⟨ow', hw, hperm⟩ := removeOwnerRefs_of_count_one hone
    rw [hw] at h
    cases h
    intro hmem
    have := hperm.mem_iff.mp hmem
    have := List.of_mem_filter this
    simp at this

/-! Lemmas about the faithful model of the pool swap-remove range loop. -/

theorem removePoolsGo_no_match (pn : String) (backing : List Pool)
    (curLen i origLen : Nat) (hlen : origLen = backing.length)
    (h : ∀ j, i ≤ j → j < origLen → ∀ q, backing.get? j = some q →
      (q.name == pn) = false) :
    removePoolsGo pn backing curLen i origLen = some (backing.take curLen) := by
  rw [removePoolsGo]
  by_cases hi : i < origLen
  · have hilen : i < backing.length := hlen ▸ hi
    rw [dif_pos hi]
    simp only [List.get?_eq_get hilen,
      h i (Nat.le_refl i) hi _ (List.get?_eq_get hilen), Bool.false_eq_true, if_false]
    exact removePoolsGo_no_match pn backing curLen (i + 1) origLen hlen
      (fun j hj hj2 q hq => h j (Nat.le_of_succ_le hj) hj2 q hq)
  · rw [dif_neg hi]
termination_by origLen - i

theorem removePoolsGo_front (pn : String) (backing : List Pool)
    (curLen i k origLen : Nat) (hlen : origLen = backing.length)
    (hik : i ≤ k) (hk : k ≤ origLen)
    (h : ∀ j, i ≤ j → j < k → ∀ q, backing.get? j = some q →
      (q.name == pn) = false) :
    removePoolsGo pn backing curLen i origLen =
      removePoolsGo pn backing curLen k origLen := by
  rcases Nat.eq_or_lt_of_le hik with he | hlt
  · rw [he]
  · have hi : i < origLen := Nat.lt_of_lt_of_le hlt hk
    have hilen : i < backing.length := hlen ▸ hi
    conv_lhs => rw [removePoolsGo]
    rw [dif_pos hi]
    simp only [List.get?_eq_get hilen,
      h i (Nat.le_refl i) hlt _ (List.get?_eq_get hilen), Bool.false_eq_true, if_false]
    exact removePoolsGo_front pn backing curLen (i + 1) k origLen hlen hlt hk
      (fun j hj hj2 q hq => h j (Nat.le_of_succ_le hj) hj2 q hq)
termination_by k - i

theorem get?_append_cons_self {α : Type} (T R : List α) (m : α) :
    (T ++ m :: R).get? T.length = some m := by
  rw [List.get?_append_right (Nat.le_refl T.length)]
  simp

theorem set_append_len {α : Type} (T R : List α) (m x : α) :
    (T ++ m :: R).set T.length x = T ++ x :: R := by
  induction T with
  | nil => rfl
  | cons b t ih =>
    have hstep : ((b :: t) ++ m :: R).set (b :: t).length x =
        b :: ((t ++ m :: R).set t.length x) := rfl
    rw [hstep, ih]
    rfl

theorem removePools_match_last (pn : String) (T : List Pool) (m : Pool)
    (hT : ∀ q ∈ T, (q.name == pn) = false) (hm : (m.name == pn) = true) :
    removePools pn (T ++ [m]) = some T := by
  have hTlt : T.length < (T ++ [m]).length := by simp
  unfold removePools
  rw [removePoolsGo_front pn (T ++ [m]) (T ++ [m]).length 0 T.length (T ++ [m]).length
    rfl (Nat.zero_le _) (Nat.le_of_lt hTlt)
    (fun j _ hj q hq => by
      rw [List.get?_append hj] at hq
      exact hT q (List.get?_mem hq))]
  rw [removePoolsGo]
  rw [dif_pos hTlt]
  have hget : (T ++ [m]).get? T.length = some m := get?_append_cons_self T [] m
  have hsub : (T ++ [m]).length - 1 = T.length := by simp
  have hset : (T ++ [m]).set T.length m = T ++ [m] := set_append_len T [] m m
  simp only [hget, hm, if_true, if_pos hTlt, hsub, hset]
  rw [removePoolsGo]
  rw [dif_neg (by simp : ¬ (T.length + 1 < (T ++ [m]).length))]
  rw [List.take_left]

theorem removePools_match_mid (pn : String) (T R : List Pool) (m : Pool)
    (hT : ∀ q ∈ T, (q.name == pn) = false) (hm : (m.name == pn) = true)
    (hR : ∀ q ∈ R, (q.name == pn) = false) (hRne : R ≠ []) :
    removePools pn (T ++ m :: R) =
      some (T ++ R.getLast hRne :: R.dropLast) := by
  have hTlt : T.length < (T ++ m :: R).length := by simp
  unfold removePools
  rw [removePoolsGo_front pn (T ++ m :: R) (T ++ m :: R).length 0 T.length
    (T ++ m :: R).length rfl (Nat.zero_le _) (Nat.le_of_lt hTlt)
    (fun j _ hj q hq => by
      rw [List.get?_append hj] at hq
      exact hT q (List.get?_mem hq))]
  rw [removePoolsGo]
  rw [dif_pos hTlt]
  have hget : (T ++ m :: R).get? T.length = some m := get?_append_cons_self T R m
  have hsub : (T ++ m :: R).length - 1 = T.length + R.length := by
    simp only [List.length_append, List.length_cons]
    omega
  have hgetlast : (T ++ m :: R).get? (T.length + R.length) =
      some (R.getLast hRne) := by
    rw [List.get?_append_right (by omega)]
    have h2 : T.length + R.length - T.length = R.length := by omega
    rw [h2]
    have h3 : (m :: R).get? R.length = R.get? (R.length - 1) := by
      cases R with
      | nil => exact absurd rfl hRne
      | cons y u => simp [List.get?]
    rw [h3, ← List.getLast?_eq_get?, List.getLast?_eq_getLast R hRne]
  have hset : (T ++ m :: R).set T.length (R.getLast hRne) =
      T ++ R.getLast hRne :: R := set_append_len T R m (R.getLast hRne)
  simp only [hget, hm, if_true, if_pos hTlt, hsub, hgetlast, hset]
  rw [removePoolsGo_no_match pn (T ++ R.getLast hRne :: R) (T.length + R.length)
    (T.length + 1) (T ++ m :: R).length (by simp)
    (fun j hj hj2 q hq => by
      rw [List.get?_append_right (by omega : T.length ≤ j)] at hq
      have hj3 : j - T.length ≥ 1 := by omega
      have h4 : (R.getLast hRne :: R).get? (j - T.length) =
          R.get? (j - T.length - 1) := by
        cases hjt : j - T.length with
        | zero => omega
        | succ jj => simp [List.get?]
      rw [h4] at hq
      exact hR q (List.get?_mem hq))]
  have htake : (T ++ R.getLast hRne :: R).take (T.length + R.length) =
      T ++ R.getLast hRne :: R.dropLast := by
    have hR1 : 1 ≤ R.length := by
      cases R with
      | nil => exact absurd rfl hRne
      | cons y u => simp
    have h5 : T.length + R.length = T.length + (1 + (R.length - 1)) := by omega
    rw [h5, List.take_append]
    congr 1
    have h6 : 1 + (R.length - 1) = (R.length - 1) + 1 := Nat.add_comm _ _
    rw [h6, List.take_succ_cons, List.dropLast_eq_take]
  rw [htake]

theorem removePools_nomatch (pn : String) (pools : List Pool)
    (h : ∀ q ∈ pools, (q.name == pn) = false) :
    removePools pn pools = some pools := by
  unfold removePools
  rw [removePoolsGo_no_match pn pools pools.length 0 pools.length rfl
    (fun j _ _ q hq => h q (List.get?_mem hq))]
  rw [List.take_length]

theorem filter_length_le_one_decomp {α : Type} (p : α → Bool) (l : List α)
    (h : (l.filter p).length ≤ 1) :
    (∀ x ∈ l, p x = false) ∨
      ∃ T m R, l = T ++ m :: R ∧ p m = true ∧
        (∀ x ∈ T, p x = false) ∧ (∀ x ∈ R, p x = false) := by
  induction l with
  | nil => left; intro x hx; cases hx
  | cons a t ih =>
    by_cases hp : p a = true
    · right
      have hfil : t.filter p = [] := by
        rw [List.filter_cons] at h
        simp only [hp, if_true, List.length_cons] at h
        have : (t.filter p).length = 0 := by omega
        exact List.length_eq_zero.mp this
      refine ⟨[], a, t, rfl, hp, fun x hx => (by cases hx), ?_⟩
      intro x hx
      have h2 := List.filter_eq_nil_iff.mp hfil x hx
      simpa using h2
    · have hp2 : p a = false := by
        cases hb : p a with
        | false => rfl
        | true => exact absurd hb hp
      have ht : (t.filter p).length ≤ 1 := by
        rw [List.filter_cons] at h
        simpa [hp2] using h
      rcases ih ht with hall | ⟨T, m, R, heq, hm, hT, hR⟩
      · left
        intro x hx
        rcases List.mem_cons.mp hx with h1 | h2
        · rw [h1]; exact hp2
        · exact hall x h2
      · right
        refine ⟨a :: T, m, R, by rw [heq]; rfl, hm, ?_, hR⟩
        intro x hx
        rcases List.mem_cons.mp hx with h1 | h2
        · rw [h1]; exact hp2
        · exact hT x h2

/-- Under the at-most-one-entry invariant, the delete-path swap-remove loop
completes and returns exactly the non-matching pool entries, reordered. -/
theorem removePools_spec (pn : String) (pools : List Pool)
    (h : (pools.filter (fun q => q.name == pn)).length ≤ 1) :
    ∃ res, removePools pn pools = some res ∧
      res.Perm (pools.filter (fun q => !(q.name == pn))) := by
  rcases filter_length_le_one_decomp _ _ h with hall | ⟨T, m, R, heq, hm, hT, hR⟩
  · refine ⟨pools, removePools_nomatch pn pools hall, ?_⟩
    rw [List.filter_eq_self.mpr (fun q hq => by rw [hall q hq]; rfl)]
  · subst heq
    cases R with
    | nil =>
      refine ⟨T, removePools_match_last pn T m hT hm, ?_⟩
      rw [List.filter_append]
      rw [List.filter_eq_self.mpr (fun q hq => by rw [hT q hq]; rfl)]
      have hm2 : List.filter (fun q => !(q.name == pn)) [m] = [] := by
        simp [hm]
      rw [hm2, List.append_nil]
    | cons y u =>
      have hRne : (y :: u) ≠ [] := by simp
      refine ⟨T ++ (y :: u).getLast hRne :: (y :: u).dropLast,
        removePools_match_mid pn T (y :: u) m hT hm hR hRne, ?_⟩
      rw [List.filter_append, List.filter_cons]
      rw [List.filter_eq_self.mpr (fun q hq => by rw [hT q hq]; rfl)]
      simp only [hm, Bool.not_true, Bool.false_eq_true, if_false]
      rw [List.filter_eq_self.mpr (fun q hq => by rw [hR q hq]; rfl)]
      apply List.Perm.append_left
      have hsplit : (y :: u).dropLast ++ [(y :: u).getLast hRne] = y :: u :=
        List.dropLast_append_getLast hRne
      have hp : ((y :: u).getLast hRne :: (y :: u).dropLast).Perm
          ((y :: u).dropLast ++ [(y :: u).getLast hRne]) :=
        (List.perm_append_singleton _ _).symm
      rw [hsplit] at hp
      exact hp

/-- A successful swap-remove leaves no entry named pn behind (given the
at-most-one invariant). -/
theorem removePools_result_clean {pn : String} {pools res : List Pool}
    (h : (pools.filter (fun q => q.name == pn)).length ≤ 1)
    (hres : removePools pn pools = some res) :
    ∀ q ∈ res, (q.name == pn) = false := by
  obtain ⟨res', hr, hperm⟩ := removePools_spec pn pools h
  rw [hr] at hres
  cases hres
  intro q hq
  have := List.of_mem_filter (hperm.mem_iff.mp hq)
  simpa using this

/-- C5: For a parent with no override annotations, the resolver returns
exactly the security catalog's list for the parent's version when
securityMode is set, and the non-security catalog's list otherwise; a
version absent from the selected catalog yields the empty component list
with no error. -/
theorem claim_C5_catalog_selection (cfg : ControllerConfig) (p : PlatformAdmin)
    (hann : p.annots = AnnotPayload.empty) :
    (p.security = true →
      desiredComponents cfg p =
        Except.ok (lookupCatalog cfg.securityComponents p.version)) ∧
    (p.security = false →
      desiredComponents cfg p =
        Except.ok (lookupCatalog cfg.noSectyComponents p.version)) ∧
    (p.security = true → cfg.securityComponents.find? (fun e => e.1 == p.version) = none →
      desiredComponents cfg p = Except.ok []) ∧
    (p.security = false → cfg.noSectyComponents.find? (fun e => e.1 == p.version) = none →
      desiredComponents cfg p = Except.ok []) := by
  have hmerge : annotationToComponent p.annots = Except.ok [] := by
    rw [hann]; rfl
  have hbase : desiredComponents cfg p = Except.ok (catalogComponents cfg p) := by
    unfold desiredComponents
    rw [hmerge]
    simp only [List.append_nil]
  refine ⟨?_, ?_, ?_, ?_⟩
  · intro hs
    rw [hbase]
    unfold catalogComponents
    rw [hs]
    rfl
  · intro hs
    rw [hbase]
    unfold catalogComponents
    rw [hs]
    rfl
  · intro hs hnone
    rw [hbase]
    unfold catalogComponents
    rw [hs]
    simp only [if_true]
    unfold lookupCatalog
    rw [hnone]
  · intro hs hnone
    rw [hbase]
    unfold catalogComponents
    rw [hs]
    simp only [Bool.false_eq_true, if_false]
    unfold lookupCatalog
    rw [hnone]

/-- Witness for C5 at a concrete configuration: securityMode with a version
present in the security catalog returns that catalog list; an unknown
version returns the empty list without error. -/
theorem claim_C5_catalog_selection_witness :
    desiredComponents
      { securityComponents :=
          [("v1", [{ name := "edgex", deployment := some ("d"), service := some ("s") }])],
        noSectyComponents := [], securityConfigMaps := [], noSectyConfigMaps := [] }
      { name := "pa", uid := "u1", version := "v2", security := true,
        poolName := "pool-a", annots := AnnotPayload.empty,
        deletionRequested := false, finalizers := [],
        status := { initialized := false, ready := false, readyComponentNum := 0,
                    unreadyComponentNum := 0, conditions := [] } } = Except.ok [] := by
  exact (claim_C5_catalog_selection _ _ rfl).2.2.1 rfl (by decide)

/-- C6: an annotation payload holding exactly one additional workload
template named n and one additional exposure template named n resolves to
exactly one Component named n carrying both the workload spec and the
exposure spec. -/
theorem claim_C6_override_merge (n dspec sspec : String) :
    annotationToComponent
      { deployments := some (Except.ok [{ name := n, spec := dspec }]),
        services := some (Except.ok [{ name := n, spec := sspec }]) } =
      Except.ok [{ name := n, deployment := some dspec, service := some sspec }] := by
  have hdups : List.eraseDups [n] = [n] := rfl
  simp [annotationToComponent, decodeOr, mergeAnnotationComponents, hdups]

/-- C7 (refuting evaluation): with two unmatched additional exposure
templates, the code yields a component for each name, but the pre-Go-1.22
loop-variable aliasing makes the first component carry the LAST template's
exposure spec instead of its own. -/
theorem claim_C7_exposure_aliasing :
    annotationToComponent
      { deployments := none,
        services := some (Except.ok
          [{ name := "edge-a", spec := "specA" },
           { name := "edge-b", spec := "specB" }]) } =
      Except.ok
        [{ name := "edge-a", deployment := none, service := some ("specB") },
         { name := "edge-b", deployment := none, service := some ("specB") }] := by
  rfl

theorem count_one_length_one {uid : String} {l : List String}
    (hc : l.count uid = 1) (hl : l.length = 1) : l = [uid] := by
  cases l with
  | nil => simp at hl
  | cons a t =>
    cases t with
    | nil =>
      have ha : (a == uid) = true := by
        by_cases h : (a == uid) = true
        · exact h
        · have h2 : (a == uid) = false := by
            cases hb : (a == uid) with
            | false => rfl
            | true => exact absurd hb h
          rw [List.count_cons, List.count_nil] at hc
          simp [h2] at hc
      rw [beq_iff_eq.mp ha]
    | cons b u => simp at hl

/-- The complement filter of the owner list has length len - count. -/
theorem filter_not_uid_length (uid : String) (l : List String) :
    (l.filter (fun x => !(x == uid))).length = l.length - l.count uid := by
  rw [← List.countP_eq_length_filter]
  have hsum := countP_add_countP_not (fun x => x == uid) l
  have hcp : l.countP (fun x => x == uid) = l.count uid := rfl
  omega

/-- C8: in the ownership GC sweep (which is exactly removeOwner applied to
each listed object), every generated child object - of any owned kind:
config, exposure, or workload-set - whose name is not in the desired set and
which lists the parent exactly once among its owners has the parent removed
from its ownership list; the object is deleted outright when the list
empties, and kept with the trimmed list otherwise. -/
theorem claim_C8_gc_ownership {α : Type} (K : OwnedKind α) (uid lblVal : String)
    (need : List String) (objs : List α) (o : α)
    (_hmem : o ∈ objs) (hlbl : K.glabel o = some lblVal)
    (hneed : need.contains (K.name o) = false)
    (hcount : (K.owners o).count uid = 1) :
    gcSweep K uid lblVal need objs = objs.filterMap (gcObjectStep K uid lblVal need) ∧
    ((K.owners o).length = 1 → gcObjectStep K uid lblVal need o = none) ∧
    (2 ≤ (K.owners o).length →
      ∃ o', gcObjectStep K uid lblVal need o = some o' ∧
        K.name o' = K.name o ∧ K.glabel o' = K.glabel o ∧ uid ∉ K.owners o' ∧
        (K.owners o').Perm ((K.owners o).filter (fun x => !(x == uid)))) := by
  have hguard : (K.glabel o == some lblVal && !(need.contains (K.name o))) = true := by
    rw [hlbl, hneed]
    simp
  refine ⟨rfl, ?_, ?_⟩
  · intro hlen
    have hsingle : K.owners o = [uid] := count_one_length_one hcount hlen
    unfold gcObjectStep
    rw [hguard]
    simp only [if_true]
    rw [hsingle, removeOwnerRefs_cons]
    simp
  · intro hlen2
    obtain ⟨ow, hw, hperm⟩ := removeOwnerRefs_of_count_one hcount
    have hnotmem : uid ∉ ow := removeOwnerRefs_some_not_mem (le_of_eq hcount) hw
    have howne : ow ≠ [] := by
      intro he
      have hfl := hperm.length_eq
      rw [he, filter_not_uid_length uid (K.owners o), hcount] at hfl
      simp at hfl
      omega
    cases ow with
    | nil => exact absurd rfl howne
    | cons w ws =>
      refine ⟨K.withOwners o (w :: ws), ?_, K.name_withOwners o (w :: ws),
        K.glabel_withOwners o (w :: ws), ?_, ?_⟩
      · unfold gcObjectStep
        rw [hguard]
        simp only [if_true]
        rw [hw]
      · rw [K.owners_withOwners]
        exact hnotmem
      · rw [K.owners_withOwners]
        exact hperm

/-- Witness for C8 at a concrete stale Service co-owned by another parent:
the sweep keeps the object and trims this parent from its owners. -/
theorem claim_C8_gc_ownership_witness :
    gcSweep svcKind ("u1") LabelService ["edgex"] [svcStale] =
      [svcStale].filterMap (gcObjectStep svcKind ("u1") LabelService ["edgex"]) ∧
    ((svcKind.owners svcStale).length = 1 →
      gcObjectStep svcKind ("u1") LabelService ["edgex"] svcStale = none) ∧
    (2 ≤ (svcKind.owners svcStale).length →
      ∃ o', gcObjectStep svcKind ("u1") LabelService ["edgex"] svcStale = some o' ∧
        svcKind.name o' = svcKind.name svcStale ∧
        svcKind.glabel o' = svcKind.glabel svcStale ∧
        ("u1") ∉ svcKind.owners o' ∧
        (svcKind.owners o').Perm
          ((svcKind.owners svcStale).filter (fun x => !(x == "u1")))) :=
  claim_C8_gc_ownership svcKind ("u1") LabelService ["edgex"] [svcStale] svcStale
    (by decide) rfl (by decide) (by decide)

/-- C9: removing the parent's pool entry (present at most once, per the
workload-set invariant) from a YurtAppSet's pool list succeeds and leaves
exactly the other parents' entries, each unchanged, up to ordering. -/
theorem claim_C9_pool_removal_frame (pn : String) (pools : List Pool)
    (h : (pools.filter (fun q => q.name == pn)).length ≤ 1) :
    ∃ res, removePools pn pools = some res ∧
      res.Perm (pools.filter (fun q => !(q.name == pn))) :=
  removePools_spec pn pools h

/-! Lemmas about the pool-join step of the synchronizer. -/

theorem join_status_branch (p : PlatformAdmin) (y : YurtAppSetT)
    (h : p.poolName ∈ y.statusPools) :
    joinYurtAppSetPool p y = (y, y.statusReadyReplicas == y.statusReplicas) := by
  simp [joinYurtAppSetPool, h]

theorem join_pools_of_present (p : PlatformAdmin) (y : YurtAppSetT)
    (h : y.pools.any (fun q => q.name == p.poolName) = true) :
    ((joinYurtAppSetPool p y).1).pools = y.pools := by
  unfold joinYurtAppSetPool
  by_cases hs : p.poolName ∈ y.statusPools
  · simp [hs]
  · simp [hs, h]

theorem join_pool_count_le_one (p : PlatformAdmin) (y : YurtAppSetT)
    (h : (y.pools.filter (fun q => q.name == p.poolName)).length ≤ 1) :
    ((((joinYurtAppSetPool p y).1).pools).filter
      (fun q => q.name == p.poolName)).length ≤ 1 := by
  unfold joinYurtAppSetPool
  by_cases hs : p.poolName ∈ y.statusPools
  · simpa [hs] using h
  · by_cases ha : y.pools.any (fun q => q.name == p.poolName) = true
    · simpa [hs, ha] using h
    · have ha2 : y.pools.any (fun q => q.name == p.poolName) = false := by
        cases hb : y.pools.any (fun q => q.name == p.poolName) with
        | false => rfl
        | true => exact absurd hb ha
      have hzero : y.pools.filter (fun q => q.name == p.poolName) = [] := by
        apply List.filter_eq_nil_iff.mpr
        intro q hq
        simp only [List.any_eq_false] at ha2
        simpa using ha2 q hq
      simp [hs, ha2, List.filter_append, hzero, newPool]

/-- C4: iterating the synchronizer's pool-join step any number of times
leaves at most one pool entry for the parent's pool name (starting from a
workload-set satisfying the invariant), and a join when an entry with that
pool name is already present in the topology appends nothing to the pool
list. -/
theorem claim_C4_pool_join_idempotent (p : PlatformAdmin) (y : YurtAppSetT) (k : Nat)
    (h : (y.pools.filter (fun q => q.name == p.poolName)).length ≤ 1) :
    (((joinIter p k y).pools.filter (fun q => q.name == p.poolName)).length ≤ 1) ∧
    (y.pools.any (fun q => q.name == p.poolName) = true →
      ((joinYurtAppSetPool p y).1).pools = y.pools) := by
  constructor
  · induction k generalizing y with
    | zero => exact h
    | succ n ih => exact ih _ (join_pool_count_le_one p y h)
  · exact join_pools_of_present p y

/-- Witness for C4: three joins starting from a pool-free workload-set leave
exactly one entry. -/
theorem claim_C4_pool_join_idempotent_witness :
    (((joinIter pW 3 yW).pools.filter (fun q => q.name == pW.poolName)).length ≤ 1) ∧
    (yW.pools.any (fun q => q.name == pW.poolName) = true →
      ((joinYurtAppSetPool pW yW).1).pools = yW.pools) :=
  claim_C4_pool_join_idempotent pW yW 3 (by decide)

/-- Witness for C9 at a concrete pool list: removing pool-a keeps pool-b and
pool-c (the swap-remove reorders them). -/
theorem claim_C9_pool_removal_frame_witness :
    ∃ res,
      removePools ("pool-a")
        [{ name := "pool-a", replicas := 1, selectorValues := ["pool-a"] },
         { name := "pool-b", replicas := 1, selectorValues := ["pool-b"] },
         { name := "pool-c", replicas := 2, selectorValues := ["pool-c"] }] = some res ∧
      res.Perm
        ([{ name := "pool-a", replicas := 1, selectorValues := ["pool-a"] },
          { name := "pool-b", replicas := 1, selectorValues := ["pool-b"] },
          { name := "pool-c", replicas := 2, selectorValues := ["pool-c"] }].filter
            (fun q => !(q.name == "pool-a"))) :=
  claim_C9_pool_removal_frame ("pool-a") _ (by decide)

/-! Lemmas about the workload-set creation path and component-loop safety. -/

theorem join_name (p : PlatformAdmin) (y : YurtAppSetT) :
    ((joinYurtAppSetPool p y).1).name = y.name := by
  unfold joinYurtAppSetPool
  by_cases hs : p.poolName ∈ y.statusPools
  · simp [hs]
  · simp [hs]

theorem joinMap_name (p : PlatformAdmin) (c : Component) (z : YurtAppSetT) :
    ((if z.name == c.name then (joinYurtAppSetPool p z).1 else z)).name = z.name := by
  split
  · exact join_name p z
  · rfl

theorem componentStep_names_mono (p : PlatformAdmin) (c : Component)
    (st st' : List ServiceT × List YurtAppSetT × Nat)
    (h : componentStep p c st = some st') (nm : String)
    (hany : st.2.1.any (fun y => y.name == nm) = true) :
    st'.2.1.any (fun y => y.name == nm) = true := by
  obtain ⟨svcs, yass, rdy⟩ := st
  obtain ⟨y0, hy0, hprop⟩ := List.any_eq_true.mp hany
  unfold componentStep at h
  dsimp only at h
  cases hf : yass.find? (fun y => y.name == c.name) with
  | none =>
    rw [hf] at h
    cases hh : handleYurtAppSet p c with
    | none => rw [hh] at h; cases h
    | some ynew =>
      rw [hh] at h
      cases h
      apply List.any_eq_true.mpr
      exact ⟨y0, List.mem_append_left _ hy0, hprop⟩
  | some yfound =>
    rw [hf] at h
    cases h
    apply List.any_eq_true.mpr
    refine ⟨(fun z => if z.name == c.name then (joinYurtAppSetPool p z).1 else z) y0,
      List.mem_map_of_mem _ hy0, ?_⟩
    show (((if y0.name == c.name then (joinYurtAppSetPool p y0).1 else y0)).name == nm) = true
    rw [joinMap_name]
    exact hprop

theorem componentLoop_safe (p : PlatformAdmin) (comps : List Component)
    (st : List ServiceT × List YurtAppSetT × Nat)
    (h : ∀ c ∈ comps, c.deployment.isSome = true ∨
      st.2.1.any (fun y => y.name == c.name) = true) :
    ∃ st', componentLoop p comps st = some st' := by
  induction comps generalizing st with
  | nil => exact ⟨st, rfl⟩
  | cons c rest ih =>
    have hstep : ∃ st1, componentStep p c st = some st1 := by
      obtain ⟨svcs, yass, rdy⟩ := st
      unfold componentStep
      dsimp only
      cases hf : yass.find? (fun y => y.name == c.name) with
      | some y =>
        exact ⟨_, rfl⟩
      | none =>
        rcases h c (List.mem_cons_self c rest) with hdep | hany
        · cases hd : c.deployment with
          | none => rw [hd] at hdep; cases hdep
          | some d =>
            unfold handleYurtAppSet
            rw [hd]
            exact ⟨_, rfl⟩
        · exfalso
          obtain ⟨y0, hy0, hp⟩ := List.any_eq_true.mp hany
          exact (List.find?_eq_none.mp hf y0 hy0) hp
    obtain ⟨st1, hst1⟩ := hstep
    have hrest : ∀ c' ∈ rest, c'.deployment.isSome = true ∨
        st1.2.1.any (fun y => y.name == c'.name) = true := by
      intro c' hc'
      rcases h c' (List.mem_cons_of_mem c hc') with hdep | hany
      · exact Or.inl hdep
      · exact Or.inr (componentStep_names_mono p c st st1 hst1 c'.name hany)
    obtain ⟨st', hst'⟩ := ih st1 hrest
    refine ⟨st', ?_⟩
    unfold componentLoop
    rw [hst1]
    exact hst'

/-- C10: a desired component without a workload (Deployment) spec makes the
creation path dereference the absent spec (the *component.Deployment nil
pointer, modelled none), and that crash propagates through the synchronizer
step whenever no workload-set with the component's name exists; conversely,
when every desired component carries a workload spec or its workload-set
already exists, the component loop completes without hitting the
dereference. -/
theorem claim_C10_nil_deployment_deref (p : PlatformAdmin) (c : Component)
    (comps : List Component) (st : List ServiceT × List YurtAppSetT × Nat)
    (hc : c.deployment = none)
    (hpre : ∀ d ∈ comps, d.deployment.isSome = true ∨
      st.2.1.any (fun y => y.name == d.name) = true) :
    handleYurtAppSet p c = none ∧
    (st.2.1.find? (fun y => y.name == c.name) = none →
      componentStep p c st = none) ∧
    ∃ st', componentLoop p comps st = some st' := by
  refine ⟨by simp [handleYurtAppSet, hc], ?_, componentLoop_safe p comps st hpre⟩
  intro hfind
  obtain ⟨svcs, yass, rdy⟩ := st
  unfold componentStep
  dsimp only
  rw [hfind]
  simp [handleYurtAppSet, hc]

/-- Witness for C10: a service-only component crashes the creation path on
an empty cluster, while a loop over a component carrying a workload spec
completes. -/
theorem claim_C10_nil_deployment_deref_witness :
    handleYurtAppSet pW cNoDep = none ∧
    (([] : List YurtAppSetT).find? (fun y => y.name == cNoDep.name) = none →
      componentStep pW cNoDep ([], [], 0) = none) ∧
    ∃ st', componentLoop pW [cDep] ([], [], 0) = some st' :=
  claim_C10_nil_deployment_deref pW cNoDep [cDep] ([], [], 0) rfl (by decide)

/-! Lemmas about the delete pass. -/

theorem patchPools_mem {n : String} {pools' : List Pool} {yass : List YurtAppSetT}
    {y' : YurtAppSetT} (h : y' ∈ patchPools n pools' yass) :
    ∃ z ∈ yass, y'.name = z.name ∧ (y'.pools = z.pools ∨ y'.pools = pools') := by
  rcases List.mem_map.mp h with ⟨z, hz, he⟩
  refine ⟨z, hz, ?_⟩
  by_cases hn : (z.name == n) = true
  · have he2 : y' = { z with pools := pools' } := by
      rw [← he]
      simp [hn]
    rw [he2]
    exact ⟨rfl, Or.inr rfl⟩
  · have he2 : y' = z := by
      rw [← he]
      simp [bool_eq_false hn]
    rw [he2]
    exact ⟨rfl, Or.inl rfl⟩

theorem patchPools_WF {pn n : String} {pools' : List Pool} {yass : List YurtAppSetT}
    (hWF : yassWF pn yass) (hclean : pools'.filter (fun q => q.name == pn) = []) :
    yassWF pn (patchPools n pools' yass) := by
  intro y' hy'
  obtain ⟨z, hz, _, hpools⟩ := patchPools_mem hy'
  rcases hpools with he | he
  · rw [he]
    exact hWF z hz
  · rw [he, hclean]
    simp

theorem patchPools_clean {pn n nm : String} {pools' : List Pool}
    {yass : List YurtAppSetT}
    (hclean : yassClean pn nm yass)
    (hp : pools'.filter (fun q => q.name == pn) = []) :
    yassClean pn nm (patchPools n pools' yass) := by
  intro y' hy' hname
  obtain ⟨z, hz, hnm, hpools⟩ := patchPools_mem hy'
  rcases hpools with he | he
  · rw [he]
    exact hclean z hz (by rw [← hnm]; exact hname)
  · rw [he]
    exact hp

theorem patchPools_clean_at (pn n : String) (pools' : List Pool)
    (yass : List YurtAppSetT)
    (hp : pools'.filter (fun q => q.name == pn) = []) :
    yassClean pn n (patchPools n pools' yass) := by
  intro y' hy' hname
  rcases List.mem_map.mp hy' with ⟨z, hz, he⟩
  by_cases hn : (z.name == n) = true
  · rw [← he]
    simp only [hn, if_true]
    exact hp
  · exfalso
    rw [← he] at hname
    simp only [bool_eq_false hn, Bool.false_eq_true, if_false] at hname

theorem removePools_filter_nil {pn : String} {pools pools' : List Pool}
    (hWF : (pools.filter (fun q => q.name == pn)).length ≤ 1)
    (hr : removePools pn pools = some pools') :
    pools'.filter (fun q => q.name == pn) = [] := by
  apply List.filter_eq_nil_iff.mpr
  intro q hq
  have := removePools_result_clean hWF hr q hq
  simp [this]

theorem reconcileDeleteLoop_nil (pn : String) (patchOk : String → Bool)
    (yass : List YurtAppSetT) :
    reconcileDeleteLoop pn patchOk [] yass = some (yass, true) := rfl

theorem reconcileDeleteLoop_cons_none (pn : String) (patchOk : String → Bool)
    (n : String) (rest : List String) (yass : List YurtAppSetT)
    (hf : yass.find? (fun y => y.name == n) = none) :
    reconcileDeleteLoop pn patchOk (n :: rest) yass =
      reconcileDeleteLoop pn patchOk rest yass := by
  conv_lhs => rw [reconcileDeleteLoop]
  simp only [hf]

theorem reconcileDeleteLoop_cons_panic (pn : String) (patchOk : String → Bool)
    (n : String) (rest : List String) (yass : List YurtAppSetT) (y : YurtAppSetT)
    (hf : yass.find? (fun y => y.name == n) = some y)
    (hr : removePools pn y.pools = none) :
    reconcileDeleteLoop pn patchOk (n :: rest) yass = none := by
  conv_lhs => rw [reconcileDeleteLoop]
  simp only [hf, hr]

theorem reconcileDeleteLoop_cons_found (pn : String) (patchOk : String → Bool)
    (n : String) (rest : List String) (yass : List YurtAppSetT) (y : YurtAppSetT)
    (pools' : List Pool)
    (hf : yass.find? (fun y => y.name == n) = some y)
    (hr : removePools pn y.pools = some pools') :
    reconcileDeleteLoop pn patchOk (n :: rest) yass =
      if patchOk n then
        reconcileDeleteLoop pn patchOk rest (patchPools n pools' yass)
      else some (yass, false) := by
  conv_lhs => rw [reconcileDeleteLoop]
  simp only [hf, hr]
  rfl

theorem reconcileDeleteLoop_preserves (pn : String) (patchOk : String → Bool)
    (names : List String) (yass res : List YurtAppSetT) (flag : Bool)
    (hWF : yassWF pn yass)
    (h : reconcileDeleteLoop pn patchOk names yass = some (res, flag)) :
    yassWF pn res ∧ ∀ nm, yassClean pn nm yass → yassClean pn nm res := by
  induction names generalizing yass with
  | nil =>
    rw [reconcileDeleteLoop_nil] at h
    cases h
    exact ⟨hWF, fun nm hc => hc⟩
  | cons n rest ih =>
    cases hf : yass.find? (fun y => y.name == n) with
    | none =>
      rw [reconcileDeleteLoop_cons_none pn patchOk n rest yass hf] at h
      exact ih yass hWF h
    | some y =>
      cases hr : removePools pn y.pools with
      | none =>
        rw [reconcileDeleteLoop_cons_panic pn patchOk n rest yass y hf hr] at h
        cases h
      | some pools' =>
        rw [reconcileDeleteLoop_cons_found pn patchOk n rest yass y pools' hf hr] at h
        have hy : y ∈ yass := List.mem_of_find?_eq_some hf
        have hclean' : pools'.filter (fun q => q.name == pn) = [] :=
          removePools_filter_nil (hWF y hy) hr
        by_cases hp : patchOk n = true
        · rw [hp] at h
          simp only [if_true] at h
          obtain ⟨hWFres, hpres⟩ := ih _ (@patchPools_WF pn n pools' yass hWF hclean') h
          exact ⟨hWFres, fun nm hc => hpres nm (patchPools_clean hc hclean')⟩
        · rw [bool_eq_false hp] at h
          simp only [Bool.false_eq_true, if_false] at h
          cases h
          exact ⟨hWF, fun nm hc => hc⟩

theorem reconcileDeleteLoop_ok_clean (pn : String) (patchOk : String → Bool)
    (names : List String) (yass res : List YurtAppSetT)
    (hWF : yassWF pn yass)
    (h : reconcileDeleteLoop pn patchOk names yass = some (res, true)) :
    ∀ nm ∈ names, yassClean pn nm res := by
  induction names generalizing yass with
  | nil =>
    intro nm hnm
    cases hnm
  | cons n rest ih =>
    intro nm hnm
    cases hf : yass.find? (fun y => y.name == n) with
    | none =>
      rw [reconcileDeleteLoop_cons_none pn patchOk n rest yass hf] at h
      rcases List.mem_cons.mp hnm with he | hr2
      · subst he
        have hc0 : yassClean pn nm yass := by
          intro y hy hname
          exact absurd hname (List.find?_eq_none.mp hf y hy)
        exact (reconcileDeleteLoop_preserves pn patchOk rest yass res true hWF h).2
          nm hc0
      · exact ih yass hWF h nm hr2
    | some y =>
      cases hr : removePools pn y.pools with
      | none =>
        rw [reconcileDeleteLoop_cons_panic pn patchOk n rest yass y hf hr] at h
        cases h
      | some pools' =>
        rw [reconcileDeleteLoop_cons_found pn patchOk n rest yass y pools' hf hr] at h
        have hy : y ∈ yass := List.mem_of_find?_eq_some hf
        have hclean' : pools'.filter (fun q => q.name == pn) = [] :=
          removePools_filter_nil (hWF y hy) hr
        by_cases hp : patchOk n = true
        · rw [hp] at h
          simp only [if_true] at h
          have hWF1 := @patchPools_WF pn n pools' yass hWF hclean'
          rcases List.mem_cons.mp hnm with he | hr2
          · subst he
            exact (reconcileDeleteLoop_preserves pn patchOk rest _ res true hWF1 h).2
              nm (patchPools_clean_at pn nm pools' yass hclean')
          · exact ih _ hWF1 h nm hr2
        · rw [bool_eq_false hp] at h
          simp only [Bool.false_eq_true, if_false] at h
          cases h

/-- C3: in the delete pass, when the pass succeeds (finalizer removed), the
pool-membership-removal step has been carried out for every desired
workload-set - no desired workload-set in the final state retains a pool
entry for the parent - and the finalizer really is gone from the persisted
parent; when any membership patch fails, the pass aborts with an error and
the stored parent (hence its finalizer) is untouched. -/
theorem claim_C3_deletion_sequencing (cfg : ControllerConfig)
    (patchOk : String → Bool) (p : PlatformAdmin) (s : ClusterState)
    (hWF : yassWF p.poolName s.yurtappsets) :
    (∀ s', reconcileDelete cfg patchOk p s = some (s', RResult.ok) →
      (s'.parent =
        some { p with
               finalizers := p.finalizers.filter (fun f => !(f == platformAdminFinalizer)) }) ∧
      (∀ q, s'.parent = some q → platformAdminFinalizer ∉ q.finalizers) ∧
      (∀ desired, desiredComponents cfg p = Except.ok desired →
        ∀ c ∈ desired, yassClean p.poolName c.name s'.yurtappsets)) ∧
    (∀ s', reconcileDelete cfg patchOk p s = some (s', RResult.err) →
      s'.parent = s.parent) := by
  constructor
  · intro s' h
    unfold reconcileDelete at h
    cases hd : desiredComponents cfg p with
    | error e =>
      simp [hd] at h
    | ok desired =>
      simp only [hd] at h
      cases hl : reconcileDeleteLoop p.poolName patchOk
          (desired.map (fun c => c.name)) s.yurtappsets with
      | none =>
        simp [hl] at h
      | some out =>
        obtain ⟨yass', flag⟩ := out
        cases flag with
        | false =>
          simp [hl] at h
        | true =>
          simp only [hl, Option.some.injEq, Prod.mk.injEq, and_true] at h
          subst h
          refine ⟨rfl, ?_, ?_⟩
          · intro q hq
            simp only [Option.some.injEq] at hq
            subst hq
            intro hmem
            have := List.mem_filter.mp hmem
            simp at this
          · intro des hdes c hc
            cases hdes
            exact reconcileDeleteLoop_ok_clean p.poolName patchOk
              (desired.map (fun c => c.name)) s.yurtappsets yass' hWF hl
              c.name (List.mem_map_of_mem _ hc)
  · intro s' h
    unfold reconcileDelete at h
    cases hd : desiredComponents cfg p with
    | error e =>
      simp only [hd, Option.some.injEq, Prod.mk.injEq, and_true] at h
      rw [← h]
    | ok desired =>
      simp only [hd] at h
      cases hl : reconcileDeleteLoop p.poolName patchOk
          (desired.map (fun c => c.name)) s.yurtappsets with
      | none =>
        simp [hl] at h
      | some out =>
        obtain ⟨yass', flag⟩ := out
        cases flag with
        | false =>
          simp only [hl, Option.some.injEq, Prod.mk.injEq, and_true] at h
          rw [← h]
        | true =>
          simp [hl] at h

/-- Witness for C3: a concrete delete pass over one desired workload-set
removes the pool entry and the finalizer. -/
theorem claim_C3_deletion_sequencing_witness :
    (∀ s', reconcileDelete cfgDel (fun _ => true) pDel sDel = some (s', RResult.ok) →
      (s'.parent =
        some { pDel with
               finalizers := pDel.finalizers.filter (fun f => !(f == platformAdminFinalizer)) }) ∧
      (∀ q, s'.parent = some q → platformAdminFinalizer ∉ q.finalizers) ∧
      (∀ desired, desiredComponents cfgDel pDel = Except.ok desired →
        ∀ c ∈ desired, yassClean pDel.poolName c.name s'.yurtappsets)) ∧
    (∀ s', reconcileDelete cfgDel (fun _ => true) pDel sDel = some (s', RResult.err) →
      s'.parent = sDel.parent) :=
  claim_C3_deletion_sequencing cfgDel (fun _ => true) pDel sDel
    (by intro y hy; fin_cases hy; decide)

/-! Status persistence on exit (claim C2). -/

/-- C2 as amended: for every reconcile invocation whose parent fetch
succeeds and whose parent is NOT marked for deletion, the deferred status
update is issued on every exit path - success, soft requeue, and hard error
alike.  (The deletion branch, like not-found, skips the status update; see
the counterexample.) -/
theorem claim_C2_status_persisted (cfg : ControllerConfig) (s : ClusterState)
    (p : PlatformAdmin) (out : ReconcileOutcome)
    (hp : s.parent = some p) (hdel : p.deletionRequested = false)
    (h : reconcile cfg s = some out) :
    out.statusPersisted = true := by
  unfold reconcile at h
  simp only [hp] at h
  rw [hdel] at h
  simp only [Bool.false_eq_true, if_false] at h
  cases hn : reconcileNormal cfg p s with
  | none =>
    simp [hn] at h
  | some t =>
    obtain ⟨s', st', r⟩ := t
    simp only [hn, Option.some.injEq] at h
    rw [← h]

/-- Witness for the amended C2: a concrete non-deleting parent's pass issues
the status update. -/
theorem claim_C2_status_persisted_witness :
    ∃ out, reconcile cfgEmpty sNorm = some out ∧ out.statusPersisted = true := by
  cases hr : reconcile cfgEmpty sNorm with
  | none => exact absurd hr (by decide)
  | some out =>
    exact ⟨out, rfl, claim_C2_status_persisted cfgEmpty sNorm pW out rfl rfl hr⟩

/-! Generic lemmas about the ownership GC sweep. -/

theorem gcObjectStep_guard_false {α : Type} (K : OwnedKind α) (uid lblVal : String)
    (need : List String) (o : α)
    (h : (K.glabel o == some lblVal && !(need.contains (K.name o))) = false) :
    gcObjectStep K uid lblVal need o = some o := by
  unfold gcObjectStep
  simp only [h, Bool.false_eq_true, if_false]

theorem removeOwnerRefs_none_not_mem {uid : String} {l : List String}
    (h : removeOwnerRefs uid l = none) : uid ∉ l := by
  induction l with
  | nil => intro hm; cases hm
  | cons o rest ih =>
    rw [removeOwnerRefs_cons] at h
    by_cases ho : (o == uid) = true
    · rw [ho] at h
      simp at h
    · rw [bool_eq_false ho] at h
      simp only [Bool.false_eq_true, if_false] at h
      intro hmem
      rcases List.mem_cons.mp hmem with he | hm
      · exact ho (beq_iff_eq.mpr he.symm)
      · cases hr : removeOwnerRefs uid rest with
        | some ow =>
          rw [hr] at h
          cases h
        | none => exact ih hr hm

theorem gcObjectStep_some_name {α : Type} {K : OwnedKind α} {uid lblVal : String}
    {need : List String} {o o2 : α}
    (h : gcObjectStep K uid lblVal need o = some o2) :
    K.name o2 = K.name o ∧ K.glabel o2 = K.glabel o := by
  unfold gcObjectStep at h
  by_cases hguard : (K.glabel o == some lblVal && !(need.contains (K.name o))) = true
  · rw [hguard] at h
    simp only [if_true] at h
    cases hrem : removeOwnerRefs uid (K.owners o) with
    | none =>
      rw [hrem] at h
      cases h
      exact ⟨rfl, rfl⟩
    | some ow =>
      rw [hrem] at h
      cases ow with
      | nil => cases h
      | cons w ws =>
        cases h
        exact ⟨K.name_withOwners o (w :: ws), K.glabel_withOwners o (w :: ws)⟩
  · rw [bool_eq_false hguard] at h
    simp only [Bool.false_eq_true, if_false, Option.some.injEq] at h
    rw [← h]
    exact ⟨rfl, rfl⟩

theorem gcSweep_keep {α : Type} (K : OwnedKind α) (uid lblVal : String)
    (need : List String) (objs : List α) (o : α)
    (ho : o ∈ objs) (hneed : need.contains (K.name o) = true) :
    o ∈ gcSweep K uid lblVal need objs := by
  have hstep : gcObjectStep K uid lblVal need o = some o := by
    apply gcObjectStep_guard_false
    rw [hneed]
    simp
  exact List.mem_filterMap.mpr ⟨o, ho, hstep⟩

theorem gcSweep_mem_src {α : Type} (K : OwnedKind α) (uid lblVal : String)
    (need : List String) (objs : List α) (o' : α)
    (h : o' ∈ gcSweep K uid lblVal need objs) :
    o' ∈ objs ∨
      ∃ o ∈ objs, K.name o' = K.name o ∧ K.glabel o' = K.glabel o ∧
        need.contains (K.name o) = false ∧
        ∃ ow, removeOwnerRefs uid (K.owners o) = some ow ∧ K.owners o' = ow := by
  obtain ⟨o, ho, hstep⟩ := List.mem_filterMap.mp h
  by_cases hguard : (K.glabel o == some lblVal && !(need.contains (K.name o))) = true
  · have hneed : need.contains (K.name o) = false := by
      have h2 := ((Bool.and_eq_true _ _).mp hguard).2
      cases hb : need.contains (K.name o) with
      | false => rfl
      | true =>
        rw [hb] at h2
        cases h2
    unfold gcObjectStep at hstep
    rw [hguard] at hstep
    simp only [if_true] at hstep
    cases hrem : removeOwnerRefs uid (K.owners o) with
    | none =>
      rw [hrem] at hstep
      cases hstep
      exact Or.inl ho
    | some ow =>
      rw [hrem] at hstep
      cases ow with
      | nil => cases hstep
      | cons w ws =>
        cases hstep
        exact Or.inr ⟨o, ho, K.name_withOwners o (w :: ws),
          K.glabel_withOwners o (w :: ws), hneed, w :: ws, hrem,
          K.owners_withOwners o (w :: ws)⟩
  · rw [gcObjectStep_guard_false K uid lblVal need o (bool_eq_false hguard)] at hstep
    cases hstep
    exact Or.inl ho

theorem gcSweep_mem_need {α : Type} (K : OwnedKind α) (uid lblVal nm : String)
    (need : List String) (objs : List α) (o' : α)
    (h : o' ∈ gcSweep K uid lblVal need objs)
    (hmatch : (K.name o' == nm) = true) (hneed : need.contains nm = true) :
    o' ∈ objs := by
  rcases gcSweep_mem_src K uid lblVal need objs o' h with h1 | ⟨o, _, hn, _, hnc, _⟩
  · exact h1
  · exfalso
    rw [← hn, beq_iff_eq.mp hmatch, hneed] at hnc
    cases hnc

theorem gcSweep_stale_free {α : Type} (K : OwnedKind α) (uid lblVal : String)
    (need : List String) (objs : List α) (hWF : ownersWFl K uid objs) :
    ∀ o' ∈ gcSweep K uid lblVal need objs,
      (K.glabel o' == some lblVal && !(need.contains (K.name o'))) = true →
        uid ∉ K.owners o' := by
  intro o' ho' hguard'
  obtain ⟨o, ho, hstep⟩ := List.mem_filterMap.mp ho'
  by_cases hguard : (K.glabel o == some lblVal && !(need.contains (K.name o))) = true
  · unfold gcObjectStep at hstep
    rw [hguard] at hstep
    simp only [if_true] at hstep
    cases hrem : removeOwnerRefs uid (K.owners o) with
    | none =>
      rw [hrem] at hstep
      cases hstep
      exact removeOwnerRefs_none_not_mem hrem
    | some ow =>
      rw [hrem] at hstep
      cases ow with
      | nil => cases hstep
      | cons w ws =>
        cases hstep
        rw [K.owners_withOwners o (w :: ws)]
        exact removeOwnerRefs_some_not_mem (hWF o ho) hrem
  · rw [gcObjectStep_guard_false K uid lblVal need o (bool_eq_false hguard)] at hstep
    cases hstep
    exact absurd hguard' hguard

theorem gcSweep_idem {α : Type} (K : OwnedKind α) (uid lblVal : String)
    (need : List String) (objs : List α) (hWF : ownersWFl K uid objs) :
    gcSweep K uid lblVal need (gcSweep K uid lblVal need objs) =
      gcSweep K uid lblVal need objs := by
  apply listFilterMapId
  intro o' ho'
  by_cases hguard : (K.glabel o' == some lblVal && !(need.contains (K.name o'))) = true
  · have hnm := gcSweep_stale_free K uid lblVal need objs hWF o' ho' hguard
    unfold gcObjectStep
    rw [hguard]
    simp only [if_true]
    rw [removeOwnerRefs_of_not_mem hnm]
  · exact gcObjectStep_guard_false K uid lblVal need o' (bool_eq_false hguard)

theorem gcSweep_WF {α : Type} (K : OwnedKind α) (uid lblVal : String)
    (need : List String) (objs : List α) (hWF : ownersWFl K uid objs) :
    ownersWFl K uid (gcSweep K uid lblVal need objs) := by
  intro o' ho'
  rcases gcSweep_mem_src K uid lblVal need objs o' ho' with h | h
  · exact hWF o' h
  · obtain ⟨o, ho, _, _, _, ow, hrem, how⟩ := h
    rw [how]
    rw [List.count_eq_zero.mpr (removeOwnerRefs_some_not_mem (hWF o ho) hrem)]
    omega

theorem gcSweep_find?_eq {α : Type} (K : OwnedKind α) (uid lblVal nm : String)
    (need : List String) (objs : List α) (hneed : need.contains nm = true) :
    (gcSweep K uid lblVal need objs).find? (fun o => K.name o == nm) =
      objs.find? (fun o => K.name o == nm) := by
  induction objs with
  | nil => rfl
  | cons o t ih =>
    by_cases hp : (K.name o == nm) = true
    · have hno : need.contains (K.name o) = true := by
        rw [beq_iff_eq.mp hp]
        exact hneed
      have hstep : gcObjectStep K uid lblVal need o = some o := by
        apply gcObjectStep_guard_false
        rw [hno]
        simp
      have hgc : gcSweep K uid lblVal need (o :: t) =
          o :: gcSweep K uid lblVal need t := by
        unfold gcSweep
        rw [List.filterMap_cons_some hstep]
      rw [hgc,
        @List.find?_cons_of_pos _ (fun z => K.name z == nm) o
          (gcSweep K uid lblVal need t) hp,
        @List.find?_cons_of_pos _ (fun z => K.name z == nm) o t hp]
    · have hp2 := bool_eq_false hp
      cases hstep : gcObjectStep K uid lblVal need o with
      | none =>
        have hgc : gcSweep K uid lblVal need (o :: t) =
            gcSweep K uid lblVal need t := by
          unfold gcSweep
          rw [List.filterMap_cons_none hstep]
        rw [hgc, ih,
          @List.find?_cons_of_neg _ (fun z => K.name z == nm) o t (by simp [hp2])]
      | some o2 =>
        have hodd := gcObjectStep_some_name hstep
        have hp3 : (K.name o2 == nm) = false := by
          rw [hodd.1]
          exact hp2
        have hgc : gcSweep K uid lblVal need (o :: t) =
            o2 :: gcSweep K uid lblVal need t := by
          unfold gcSweep
          rw [List.filterMap_cons_some hstep]
        rw [hgc,
          @List.find?_cons_of_neg _ (fun z => K.name z == nm) o2
            (gcSweep K uid lblVal need t) (by simp [hp3]),
          @List.find?_cons_of_neg _ (fun z => K.name z == nm) o t (by simp [hp2]), ih]

/-! ConfigMap phase: establishment, stability and idempotence. -/

theorem cmUpd_name (uid nm : String) (c : ConfigMapT) :
    ((if c.name == nm then { c with owners := addOwnerRef uid c.owners } else c)).name =
      c.name := by
  split
  · rfl
  · rfl

theorem upsertConfigmap_estab (uid : String) (t : CMTemplate) (cms : List ConfigMapT) :
    cmEstab uid t.name (upsertConfigmap uid t cms) := by
  unfold upsertConfigmap
  by_cases ha : cms.any (fun c => c.name == t.name) = true
  · rw [ha]
    simp only [if_true]
    constructor
    · obtain ⟨c0, hc0, hp0⟩ := List.any_eq_true.mp ha
      apply List.any_eq_true.mpr
      refine ⟨_, List.mem_map_of_mem _ hc0, ?_⟩
      rw [cmUpd_name]
      exact hp0
    · intro c' hc' hmatch
      rcases List.mem_map.mp hc' with ⟨c0, hc0, he⟩
      by_cases hc : (c0.name == t.name) = true
      · rw [← he]
        simp only [hc, if_true]
        exact addOwnerRef_mem uid c0.owners
      · rw [← he] at hmatch
        simp only [bool_eq_false hc, Bool.false_eq_true, if_false] at hmatch
  · rw [bool_eq_false ha]

    simp only [Bool.false_eq_true, if_false]
    constructor
    · apply List.any_eq_true.mpr
      refine ⟨_, List.mem_append_right cms (List.mem_singleton.mpr rfl), ?_⟩
      simp
    · intro c' hc' _
      rcases List.mem_append.mp hc' with h1 | h2
      · exfalso
        apply ha
        apply List.any_eq_true.mpr
        exact ⟨c', h1, by assumption⟩
      · rw [List.mem_singleton.mp h2]
        simp

theorem upsertConfigmap_preserve (uid : String) (t : CMTemplate) (nm : String)
    (cms : List ConfigMapT) (h : cmEstab uid nm cms) :
    cmEstab uid nm (upsertConfigmap uid t cms) := by
  unfold upsertConfigmap
  by_cases ha : cms.any (fun c => c.name == t.name) = true
  · rw [ha]
    simp only [if_true]
    constructor
    · obtain ⟨c0, hc0, hp0⟩ := List.any_eq_true.mp h.1
      apply List.any_eq_true.mpr
      refine ⟨_, List.mem_map_of_mem _ hc0, ?_⟩
      rw [cmUpd_name]
      exact hp0
    · intro c' hc' hmatch
      rcases List.mem_map.mp hc' with ⟨c0, hc0, he⟩
      have hname : c'.name = c0.name := by
        rw [← he]
        exact cmUpd_name uid t.name c0
      have hm0 : (c0.name == nm) = true := by
        rw [← hname]
        exact hmatch
      by_cases hc : (c0.name == t.name) = true
      · rw [← he]
        simp only [hc, if_true]
        exact addOwnerRef_mem uid c0.owners
      · have he2 : c' = c0 := by
          rw [← he]
          simp [bool_eq_false hc]
        rw [he2]
        exact h.2 c0 hc0 hm0
  · rw [bool_eq_false ha]
    simp only [Bool.false_eq_true, if_false]
    constructor
    · obtain ⟨c0, hc0, hp0⟩ := List.any_eq_true.mp h.1
      apply List.any_eq_true.mpr
      exact ⟨c0, List.mem_append_left _ hc0, hp0⟩
    · intro c' hc' hmatch
      rcases List.mem_append.mp hc' with h1 | h2
      · exact h.2 c' h1 hmatch
      · rw [List.mem_singleton.mp h2]
        simp

theorem upsertConfigmap_stable (uid : String) (t : CMTemplate) (cms : List ConfigMapT)
    (h : cmEstab uid t.name cms) : upsertConfigmap uid t cms = cms := by
  unfold upsertConfigmap
  rw [h.1]
  simp only [if_true]
  apply listMapId
  intro c hc
  by_cases hm : (c.name == t.name) = true
  · simp only [hm, if_true]
    rw [addOwnerRef_of_mem (h.2 c hc hm)]
  · simp only [bool_eq_false hm, Bool.false_eq_true, if_false]

theorem upsertConfigmap_WF (uid : String) (t : CMTemplate) (cms : List ConfigMapT)
    (h : ownersWFl cmKind uid cms) :
    ownersWFl cmKind uid (upsertConfigmap uid t cms) := by
  unfold upsertConfigmap
  by_cases ha : cms.any (fun c => c.name == t.name) = true
  · rw [ha]
    simp only [if_true]
    intro c' hc'
    rcases List.mem_map.mp hc' with ⟨c0, hc0, he⟩
    by_cases hc : (c0.name == t.name) = true
    · rw [← he]
      simp only [hc, if_true]
      exact count_addOwnerRef_le uid c0.owners (h c0 hc0)
    · rw [← he]
      simp only [bool_eq_false hc, Bool.false_eq_true, if_false]
      exact h c0 hc0
  · rw [bool_eq_false ha]
    simp only [Bool.false_eq_true, if_false]
    intro c' hc'
    rcases List.mem_append.mp hc' with h1 | h2
    · exact h c' h1
    · rw [List.mem_singleton.mp h2]
      simp [cmKind]

theorem foldl_upsert_preserve (uid : String) (ts : List CMTemplate) (nm : String)
    (cms : List ConfigMapT) (h : cmEstab uid nm cms) :
    cmEstab uid nm (ts.foldl (fun acc t => upsertConfigmap uid t acc) cms) := by
  induction ts generalizing cms with
  | nil => exact h
  | cons t0 rest ih => exact ih _ (upsertConfigmap_preserve uid t0 nm cms h)

theorem foldl_upsert_estab (uid : String) (ts : List CMTemplate) (cms : List ConfigMapT) :
    ∀ t ∈ ts, cmEstab uid t.name
      (ts.foldl (fun acc t => upsertConfigmap uid t acc) cms) := by
  induction ts generalizing cms with
  | nil =>
    intro t ht
    cases ht
  | cons t0 rest ih =>
    intro t ht
    rcases List.mem_cons.mp ht with he | hr
    · subst he
      exact foldl_upsert_preserve uid rest t.name _ (upsertConfigmap_estab uid t cms)
    · exact ih (upsertConfigmap uid t0 cms) t hr

theorem foldl_upsert_stable (uid : String) (ts : List CMTemplate) (cms : List ConfigMapT)
    (h : ∀ t ∈ ts, cmEstab uid t.name cms) :
    ts.foldl (fun acc t => upsertConfigmap uid t acc) cms = cms := by
  induction ts with
  | nil => rfl
  | cons t0 rest ih =>
    simp only [List.foldl_cons]
    rw [upsertConfigmap_stable uid t0 cms (h t0 (List.mem_cons_self t0 rest))]
    exact ih (fun t ht => h t (List.mem_cons_of_mem t0 ht))

theorem foldl_upsert_WF (uid : String) (ts : List CMTemplate) (cms : List ConfigMapT)
    (h : ownersWFl cmKind uid cms) :
    ownersWFl cmKind uid (ts.foldl (fun acc t => upsertConfigmap uid t acc) cms) := by
  induction ts generalizing cms with
  | nil => exact h
  | cons t0 rest ih => exact ih _ (upsertConfigmap_WF uid t0 cms h)

theorem gc_cm_estab (uid nm : String) (need : List String) (cms : List ConfigMapT)
    (h : cmEstab uid nm cms) (hneed : need.contains nm = true) :
    cmEstab uid nm (gcSweep cmKind uid LabelConfigmap need cms) := by
  constructor
  · obtain ⟨c0, hc0, hp0⟩ := List.any_eq_true.mp h.1
    apply List.any_eq_true.mpr
    refine ⟨c0, ?_, hp0⟩
    apply gcSweep_keep
    · exact hc0
    · have : cmKind.name c0 = c0.name := rfl
      rw [this, beq_iff_eq.mp hp0]
      exact hneed
  · intro c' hc' hmatch
    exact h.2 c'
      (gcSweep_mem_need cmKind uid LabelConfigmap nm need cms c' hc' hmatch hneed) hmatch

theorem rcm_pipeline_idem (uid : String) (ts : List CMTemplate) (cms : List ConfigMapT)
    (hWF : ownersWFl cmKind uid cms) :
    gcSweep cmKind uid LabelConfigmap (ts.map (fun t => t.name))
      (ts.foldl (fun acc t => upsertConfigmap uid t acc)
        (gcSweep cmKind uid LabelConfigmap (ts.map (fun t => t.name))
          (ts.foldl (fun acc t => upsertConfigmap uid t acc) cms))) =
    gcSweep cmKind uid LabelConfigmap (ts.map (fun t => t.name))
      (ts.foldl (fun acc t => upsertConfigmap uid t acc) cms) := by
  have h1 := foldl_upsert_estab uid ts cms
  have h2 : ∀ t ∈ ts, cmEstab uid t.name
      (gcSweep cmKind uid LabelConfigmap (ts.map (fun t => t.name))
        (ts.foldl (fun acc t => upsertConfigmap uid t acc) cms)) := by
    intro t ht
    apply gc_cm_estab uid t.name _ _ (h1 t ht)
    exact List.elem_iff.mpr (List.mem_map_of_mem _ ht)
  rw [foldl_upsert_stable uid ts _ h2]
  exact gcSweep_idem cmKind uid LabelConfigmap (ts.map (fun t => t.name))
    (ts.foldl (fun acc t => upsertConfigmap uid t acc) cms)
    (foldl_upsert_WF uid ts cms hWF)

/-- The ConfigMap pass is idempotent on the stored ConfigMap set. -/
theorem reconcileConfigmap_idem (cfg : ControllerConfig) (p : PlatformAdmin)
    (cms : List ConfigMapT) (hWF : ownersWFl cmKind p.uid cms) :
    reconcileConfigmap cfg p (reconcileConfigmap cfg p cms) =
      reconcileConfigmap cfg p cms := by
  unfold reconcileConfigmap
  exact rcm_pipeline_idem p.uid (catalogConfigMaps cfg p) cms hWF

theorem reconcileConfigmap_WF (cfg : ControllerConfig) (p : PlatformAdmin)
    (cms : List ConfigMapT) (hWF : ownersWFl cmKind p.uid cms) :
    ownersWFl cmKind p.uid (reconcileConfigmap cfg p cms) := by
  unfold reconcileConfigmap
  exact gcSweep_WF cmKind p.uid LabelConfigmap _ _
    (foldl_upsert_WF p.uid (catalogConfigMaps cfg p) cms hWF)

/-! Component phase: join, service and step lemmas. -/

theorem join_else (p : PlatformAdmin) (y : YurtAppSetT)
    (hs : p.poolName ∉ y.statusPools) :
    joinYurtAppSetPool p y =
      ({ y with
          pools :=
            if y.pools.any (fun q => q.name == p.poolName) then y.pools
            else y.pools ++ [newPool p.poolName],
          owners := addOwnerRef p.uid y.owners }, false) := by
  unfold joinYurtAppSetPool
  simp [hs]

theorem join_status_fields (p : PlatformAdmin) (y : YurtAppSetT) :
    ((joinYurtAppSetPool p y).1).statusPools = y.statusPools ∧
    ((joinYurtAppSetPool p y).1).statusReadyReplicas = y.statusReadyReplicas ∧
    ((joinYurtAppSetPool p y).1).statusReplicas = y.statusReplicas := by
  by_cases hs : p.poolName ∈ y.statusPools
  · rw [join_status_branch p y hs]
    exact ⟨rfl, rfl, rfl⟩
  · rw [join_else p y hs]
    exact ⟨rfl, rfl, rfl⟩

theorem join_pools_any (p : PlatformAdmin) (y : YurtAppSetT)
    (hs : p.poolName ∉ y.statusPools) :
    (((joinYurtAppSetPool p y).1).pools.any (fun q => q.name == p.poolName)) = true := by
  rw [join_else p y hs]
  by_cases ha : y.pools.any (fun q => q.name == p.poolName) = true
  · simp only [ha, if_true]
  · simp only [bool_eq_false ha, Bool.false_eq_true, if_false]
    apply List.any_eq_true.mpr
    refine ⟨newPool p.poolName, List.mem_append_right _ (List.mem_singleton.mpr rfl), ?_⟩
    simp [newPool]

theorem join_stable (p : PlatformAdmin) (y : YurtAppSetT) :
    (joinYurtAppSetPool p ((joinYurtAppSetPool p y).1)).1 = (joinYurtAppSetPool p y).1 := by
  by_cases hs : p.poolName ∈ y.statusPools
  · have h1 : (joinYurtAppSetPool p y).1 = y := by
      rw [join_status_branch p y hs]
    rw [h1, h1]
  · have hs2 : p.poolName ∉ ((joinYurtAppSetPool p y).1).statusPools := by
      rw [(join_status_fields p y).1]
      exact hs
    rw [join_else p _ hs2]
    have hpools := join_pools_any p y hs
    simp only [hpools, if_true]
    have howners : ((joinYurtAppSetPool p y).1).owners = addOwnerRef p.uid y.owners := by
      rw [join_else p y hs]
    rw [howners, addOwnerRef_idem]
    rw [join_else p y hs]

theorem join_ready_stable (p : PlatformAdmin) (y : YurtAppSetT) :
    (joinYurtAppSetPool p ((joinYurtAppSetPool p y).1)).2 = (joinYurtAppSetPool p y).2 := by
  by_cases hs : p.poolName ∈ y.statusPools
  · have h1 : (joinYurtAppSetPool p y).1 = y := by
      rw [join_status_branch p y hs]
    rw [h1]
  · have hs2 : p.poolName ∉ ((joinYurtAppSetPool p y).1).statusPools := by
      rw [(join_status_fields p y).1]
      exact hs
    rw [join_else p _ hs2, join_else p y hs]

theorem join_owners_WF (p : PlatformAdmin) (y : YurtAppSetT)
    (h : y.owners.count p.uid ≤ 1) :
    (((joinYurtAppSetPool p y).1).owners.count p.uid) ≤ 1 := by
  by_cases hs : p.poolName ∈ y.statusPools
  · rw [join_status_branch p y hs]
    exact h
  · rw [join_else p y hs]
    exact count_addOwnerRef_le p.uid y.owners h

theorem freshYas_props (p : PlatformAdmin) (c : Component) (y0 : YurtAppSetT)
    (h : handleYurtAppSet p c = some y0) :
    (joinYurtAppSetPool p y0).1 = y0 ∧ (joinYurtAppSetPool p y0).2 = false ∧
    y0.name = c.name ∧ y0.owners = [p.uid] := by
  unfold handleYurtAppSet at h
  cases hd : c.deployment with
  | none =>
    rw [hd] at h
    cases h
  | some d =>
    rw [hd] at h
    cases h
    refine ⟨?_, ?_, rfl, rfl⟩
    · rw [join_else p _ (by simp)]
      simp [newPool, addOwnerRef]
    · rw [join_else p _ (by simp)]

theorem svcUpd_name (uid nm : String) (s : ServiceT) :
    ((if s.name == nm then { s with owners := addOwnerRef uid s.owners } else s)).name =
      s.name := by
  split
  · rfl
  · rfl

theorem handleService_estab (p : PlatformAdmin) (c : Component) (svcs : List ServiceT) :
    svcEstab p c (handleService p c svcs) := by
  unfold handleService
  cases hc : c.service with
  | none => exact Or.inl hc
  | some spec =>
    right
    by_cases ha : svcs.any (fun s => s.name == c.name) = true
    · rw [ha]
      simp only [if_true]
      constructor
      · obtain ⟨s0, hs0, hp0⟩ := List.any_eq_true.mp ha
        apply List.any_eq_true.mpr
        refine ⟨_, List.mem_map_of_mem _ hs0, ?_⟩
        rw [svcUpd_name]
        exact hp0
      · intro s' hs' hmatch
        rcases List.mem_map.mp hs' with ⟨s0, hs0, he⟩
        by_cases hm : (s0.name == c.name) = true
        · rw [← he]
          simp only [hm, if_true]
          exact addOwnerRef_mem p.uid s0.owners
        · rw [← he] at hmatch
          simp only [bool_eq_false hm, Bool.false_eq_true, if_false] at hmatch
    · rw [bool_eq_false ha]
      simp only [Bool.false_eq_true, if_false]
      constructor
      · apply List.any_eq_true.mpr
        refine ⟨_, List.mem_append_right svcs (List.mem_singleton.mpr rfl), ?_⟩
        simp
      · intro s' hs' _
        rcases List.mem_append.mp hs' with h1 | h2
        · exfalso
          apply ha
          apply List.any_eq_true.mpr
          exact ⟨s', h1, by assumption⟩
        · rw [List.mem_singleton.mp h2]
          simp

theorem handleService_preserve (p : PlatformAdmin) (c c' : Component)
    (svcs : List ServiceT) (h : svcEstab p c svcs) :
    svcEstab p c (handleService p c' svcs) := by
  rcases h with h | ⟨hany, hall⟩
  · exact Or.inl h
  · right
    unfold handleService
    cases hc' : c'.service with
    | none => exact ⟨hany, hall⟩
    | some spec =>
      by_cases ha : svcs.any (fun s => s.name == c'.name) = true
      · rw [ha]
        simp only [if_true]
        constructor
        · obtain ⟨s0, hs0, hp0⟩ := List.any_eq_true.mp hany
          apply List.any_eq_true.mpr
          refine ⟨_, List.mem_map_of_mem _ hs0, ?_⟩
          rw [svcUpd_name]
          exact hp0
        · intro s' hs' hmatch
          rcases List.mem_map.mp hs' with ⟨s0, hs0, he⟩
          have hname : s'.name = s0.name := by
            rw [← he]
            exact svcUpd_name p.uid c'.name s0
          have hm0 : (s0.name == c.name) = true := by
            rw [← hname]
            exact hmatch
          by_cases hm : (s0.name == c'.name) = true
          · rw [← he]
            simp only [hm, if_true]
            exact addOwnerRef_mem p.uid s0.owners
          · have he2 : s' = s0 := by
              rw [← he]
              simp [bool_eq_false hm]
            rw [he2]
            exact hall s0 hs0 hm0
      · rw [bool_eq_false ha]
        simp only [Bool.false_eq_true, if_false]
        constructor
        · obtain ⟨s0, hs0, hp0⟩ := List.any_eq_true.mp hany
          apply List.any_eq_true.mpr
          exact ⟨s0, List.mem_append_left _ hs0, hp0⟩
        · intro s' hs' hmatch
          rcases List.mem_append.mp hs' with h1 | h2
          · exact hall s' h1 hmatch
          · rw [List.mem_singleton.mp h2]
            simp

theorem handleService_stable (p : PlatformAdmin) (c : Component) (svcs : List ServiceT)
    (h : svcEstab p c svcs) : handleService p c svcs = svcs := by
  unfold handleService
  cases hc : c.service with
  | none => rfl
  | some spec =>
    rcases h with h | ⟨hany, hall⟩
    · rw [hc] at h
      cases h
    · rw [hany]
      simp only [if_true]
      apply listMapId
      intro s hs
      by_cases hm : (s.name == c.name) = true
      · simp only [hm, if_true]
        rw [addOwnerRef_of_mem (hall s hs hm)]
      · simp only [bool_eq_false hm, Bool.false_eq_true, if_false]

theorem handleService_WF (p : PlatformAdmin) (c : Component) (svcs : List ServiceT)
    (h : ownersWFl svcKind p.uid svcs) :
    ownersWFl svcKind p.uid (handleService p c svcs) := by
  unfold handleService
  cases hc : c.service with
  | none => exact h
  | some spec =>
    by_cases ha : svcs.any (fun s => s.name == c.name) = true
    · rw [ha]
      simp only [if_true]
      intro s' hs'
      rcases List.mem_map.mp hs' with ⟨s0, hs0, he⟩
      by_cases hm : (s0.name == c.name) = true
      · rw [← he]
        simp only [hm, if_true]
        exact count_addOwnerRef_le p.uid s0.owners (h s0 hs0)
      · rw [← he]
        simp only [bool_eq_false hm, Bool.false_eq_true, if_false]
        exact h s0 hs0
    · rw [bool_eq_false ha]
      simp only [Bool.false_eq_true, if_false]
      intro s' hs'
      rcases List.mem_append.mp hs' with h1 | h2
      · exact h s' h1
      · rw [List.mem_singleton.mp h2]
        simp [svcKind]

theorem componentStep_found (p : PlatformAdmin) (c : Component)
    (svcs : List ServiceT) (yass : List YurtAppSetT) (rdy : Nat) (y : YurtAppSetT)
    (hf : yass.find? (fun z => z.name == c.name) = some y) :
    componentStep p c (svcs, yass, rdy) =
      some (handleService p c svcs,
            yass.map (fun z => if z.name == c.name then (joinYurtAppSetPool p z).1 else z),
            if (joinYurtAppSetPool p y).2 then rdy + 1 else rdy) := by
  unfold componentStep
  dsimp only
  rw [hf]

theorem componentStep_absent (p : PlatformAdmin) (c : Component)
    (svcs : List ServiceT) (yass : List YurtAppSetT) (rdy : Nat) (y0 : YurtAppSetT)
    (hf : yass.find? (fun z => z.name == c.name) = none)
    (hy : handleYurtAppSet p c = some y0) :
    componentStep p c (svcs, yass, rdy) =
      some (handleService p c svcs, yass ++ [y0], rdy) := by
  unfold componentStep
  dsimp only
  rw [hf, hy]

theorem find?_some_of_any (nm : String) (yass : List YurtAppSetT)
    (h : yass.any (fun y => y.name == nm) = true) :
    ∃ y, yass.find? (fun y => y.name == nm) = some y := by
  cases hf : yass.find? (fun y => y.name == nm) with
  | some y => exact ⟨y, rfl⟩
  | none =>
    obtain ⟨y0, hy0, hp⟩ := List.any_eq_true.mp h
    exact absurd hp (List.find?_eq_none.mp hf y0 hy0)

theorem find?_map_namePres (f : YurtAppSetT → YurtAppSetT)
    (hnm : ∀ z, (f z).name = z.name) (nm : String) (yass : List YurtAppSetT) :
    (yass.map f).find? (fun y => y.name == nm) =
      (yass.find? (fun y => y.name == nm)).map f := by
  induction yass with
  | nil => rfl
  | cons z t ih =>
    simp only [List.map_cons]
    by_cases hp : (z.name == nm) = true
    · rw [@List.find?_cons_of_pos _ (fun y => y.name == nm) (f z) (t.map f)
        (by show ((f z).name == nm) = true; rw [hnm z]; exact hp)]
      rw [@List.find?_cons_of_pos _ (fun y => y.name == nm) z t hp]
      rfl
    · rw [@List.find?_cons_of_neg _ (fun y => y.name == nm) (f z) (t.map f)
        (by show ¬ ((f z).name == nm) = true; rw [hnm z]; simp [bool_eq_false hp])]
      rw [@List.find?_cons_of_neg _ (fun y => y.name == nm) z t
        (by simp [bool_eq_false hp])]
      exact ih

theorem componentStep_estab (p : PlatformAdmin) (c : Component)
    (svcs : List ServiceT) (yass : List YurtAppSetT) (rdy : Nat)
    (st' : List ServiceT × List YurtAppSetT × Nat)
    (h : componentStep p c (svcs, yass, rdy) = some st') :
    compEstab p c st'.1 st'.2.1 := by
  cases hf : yass.find? (fun z => z.name == c.name) with
  | some y =>
    rw [componentStep_found p c svcs yass rdy y hf] at h
    cases h
    refine ⟨handleService_estab p c svcs, ?_, ?_⟩
    · have hy := List.mem_of_find?_eq_some hf
      have hp := List.find?_some hf
      apply List.any_eq_true.mpr
      refine ⟨_, List.mem_map_of_mem _ hy, ?_⟩
      show (((if y.name == c.name then (joinYurtAppSetPool p y).1 else y)).name == c.name) = true
      rw [joinMap_name]
      exact hp
    · intro z' hz' hmatch
      rcases List.mem_map.mp hz' with ⟨z, hz, he⟩
      have hname : z'.name = z.name := by
        rw [← he]
        exact joinMap_name p c z
      have hm0 : (z.name == c.name) = true := by
        rw [← hname]
        exact hmatch
      rw [← he]
      simp only [hm0, if_true]
      exact join_stable p z
  | none =>
    cases hy : handleYurtAppSet p c with
    | none =>
      exfalso
      unfold componentStep at h
      dsimp only at h
      rw [hf, hy] at h
      cases h
    | some y0 =>
      rw [componentStep_absent p c svcs yass rdy y0 hf hy] at h
      cases h
      obtain ⟨hjoin, _, hname0, _⟩ := freshYas_props p c y0 hy
      refine ⟨handleService_estab p c svcs, ?_, ?_⟩
      · apply List.any_eq_true.mpr
        refine ⟨y0, List.mem_append_right yass (List.mem_singleton.mpr rfl), ?_⟩
        rw [hname0]
        simp
      · intro z' hz' hmatch
        rcases List.mem_append.mp hz' with h1 | h2
        · exact absurd hmatch (List.find?_eq_none.mp hf z' h1)
        · rw [List.mem_singleton.mp h2]
          exact hjoin

theorem componentStep_preserve (p : PlatformAdmin) (c' c : Component)
    (svcs : List ServiceT) (yass : List YurtAppSetT) (rdy : Nat)
    (st' : List ServiceT × List YurtAppSetT × Nat)
    (h : componentStep p c' (svcs, yass, rdy) = some st')
    (hc : compEstab p c svcs yass) :
    compEstab p c st'.1 st'.2.1 := by
  cases hf : yass.find? (fun z => z.name == c'.name) with
  | some y =>
    rw [componentStep_found p c' svcs yass rdy y hf] at h
    cases h
    refine ⟨handleService_preserve p c c' svcs hc.1, ?_, ?_⟩
    · obtain ⟨w, hw, hpw⟩ := List.any_eq_true.mp hc.2.1
      apply List.any_eq_true.mpr
      refine ⟨_, List.mem_map_of_mem _ hw, ?_⟩
      show (((if w.name == c'.name then (joinYurtAppSetPool p w).1 else w)).name == c.name) = true
      rw [joinMap_name]
      exact hpw
    · intro z' hz' hmatch
      rcases List.mem_map.mp hz' with ⟨z, hz, he⟩
      have hname : z'.name = z.name := by
        rw [← he]
        exact joinMap_name p c' z
      have hm0 : (z.name == c.name) = true := by
        rw [← hname]
        exact hmatch
      have hzstable := hc.2.2 z hz hm0
      by_cases hm' : (z.name == c'.name) = true
      · have he2 : z' = (joinYurtAppSetPool p z).1 := by
          rw [← he]
          simp [hm']
        rw [he2, hzstable]
        exact hzstable
      · have he2 : z' = z := by
          rw [← he]
          simp [bool_eq_false hm']
        rw [he2]
        exact hzstable
  | none =>
    cases hy : handleYurtAppSet p c' with
    | none =>
      exfalso
      unfold componentStep at h
      dsimp only at h
      rw [hf, hy] at h
      cases h
    | some y0 =>
      rw [componentStep_absent p c' svcs yass rdy y0 hf hy] at h
      cases h
      obtain ⟨hjoin0, _, _, _⟩ := freshYas_props p c' y0 hy
      refine ⟨handleService_preserve p c c' svcs hc.1, ?_, ?_⟩
      · obtain ⟨w, hw, hpw⟩ := List.any_eq_true.mp hc.2.1
        exact List.any_eq_true.mpr ⟨w, List.mem_append_left _ hw, hpw⟩
      · intro z' hz' hmatch
        rcases List.mem_append.mp hz' with h1 | h2
        · exact hc.2.2 z' h1 hmatch
        · rw [List.mem_singleton.mp h2]
          exact hjoin0

theorem componentStep_contrib (p : PlatformAdmin) (c' c : Component)
    (svcs : List ServiceT) (yass : List YurtAppSetT) (rdy : Nat)
    (st' : List ServiceT × List YurtAppSetT × Nat)
    (h : componentStep p c' (svcs, yass, rdy) = some st') :
    contribOf p c st'.2.1 = contribOf p c yass := by
  cases hf : yass.find? (fun z => z.name == c'.name) with
  | some y =>
    rw [componentStep_found p c' svcs yass rdy y hf] at h
    cases h
    show contribOf p c
        (yass.map fun z => if z.name == c'.name then (joinYurtAppSetPool p z).1 else z) =
      contribOf p c yass
    unfold contribOf
    rw [find?_map_namePres _ (joinMap_name p c') c.name yass]
    cases hfc : yass.find? (fun y => y.name == c.name) with
    | none => rfl
    | some w =>
      simp only [Option.map_some']
      by_cases hm : (w.name == c'.name) = true
      · simp only [hm, if_true]
        exact join_ready_stable p w
      · simp only [bool_eq_false hm, Bool.false_eq_true, if_false]
  | none =>
    cases hy : handleYurtAppSet p c' with
    | none =>
      exfalso
      unfold componentStep at h
      dsimp only at h
      rw [hf, hy] at h
      cases h
    | some y0 =>
      rw [componentStep_absent p c' svcs yass rdy y0 hf hy] at h
      cases h
      show contribOf p c (yass ++ [y0]) = contribOf p c yass
      unfold contribOf
      rw [List.find?_append]
      cases hfc : yass.find? (fun y => y.name == c.name) with
      | some w => rfl
      | none =>
        simp only [Option.none_or]
        by_cases hm : (y0.name == c.name) = true
        · rw [@List.find?_cons_of_pos _ (fun y => y.name == c.name) y0 [] hm]
          obtain ⟨_, hready, _, _⟩ := freshYas_props p c' y0 hy
          exact hready
        · rw [@List.find?_cons_of_neg _ (fun y => y.name == c.name) y0 []
            (by simp [bool_eq_false hm])]
          rfl

theorem componentStep_stable (p : PlatformAdmin) (c : Component)
    (svcs : List ServiceT) (yass : List YurtAppSetT) (rdy : Nat)
    (hc : compEstab p c svcs yass) :
    componentStep p c (svcs, yass, rdy) =
      some (svcs, yass, if contribOf p c yass then rdy + 1 else rdy) := by
  obtain ⟨w, hwfind⟩ := find?_some_of_any c.name yass hc.2.1
  rw [componentStep_found p c svcs yass rdy w hwfind]
  rw [handleService_stable p c svcs hc.1]
  have hmap :
      (yass.map fun z => if z.name == c.name then (joinYurtAppSetPool p z).1 else z) =
        yass := by
    apply listMapId
    intro z hz
    by_cases hm : (z.name == c.name) = true
    · simp only [hm, if_true]
      exact hc.2.2 z hz hm
    · simp only [bool_eq_false hm, Bool.false_eq_true, if_false]
  rw [hmap]
  have hcontrib : contribOf p c yass = (joinYurtAppSetPool p w).2 := by
    unfold contribOf
    rw [hwfind]
  rw [hcontrib]

theorem componentStep_WF (p : PlatformAdmin) (c : Component)
    (svcs : List ServiceT) (yass : List YurtAppSetT) (rdy : Nat)
    (st' : List ServiceT × List YurtAppSetT × Nat)
    (h : componentStep p c (svcs, yass, rdy) = some st')
    (hWs : ownersWFl svcKind p.uid svcs) (hWy : ownersWFl yasKind p.uid yass) :
    ownersWFl svcKind p.uid st'.1 ∧ ownersWFl yasKind p.uid st'.2.1 := by
  cases hf : yass.find? (fun z => z.name == c.name) with
  | some y =>
    rw [componentStep_found p c svcs yass rdy y hf] at h
    cases h
    refine ⟨handleService_WF p c svcs hWs, ?_⟩
    intro z' hz'
    rcases List.mem_map.mp hz' with ⟨z, hz, he⟩
    by_cases hm : (z.name == c.name) = true
    · have he2 : z' = (joinYurtAppSetPool p z).1 := by
        rw [← he]
        simp [hm]
      rw [he2]
      exact join_owners_WF p z (hWy z hz)
    · have he2 : z' = z := by
        rw [← he]
        simp [bool_eq_false hm]
      rw [he2]
      exact hWy z hz
  | none =>
    cases hy : handleYurtAppSet p c with
    | none =>
      exfalso
      unfold componentStep at h
      dsimp only at h
      rw [hf, hy] at h
      cases h
    | some y0 =>
      rw [componentStep_absent p c svcs yass rdy y0 hf hy] at h
      cases h
      refine ⟨handleService_WF p c svcs hWs, ?_⟩
      intro z' hz'
      rcases List.mem_append.mp hz' with h1 | h2
      · exact hWy z' h1
      · rw [List.mem_singleton.mp h2]
        have hown := (freshYas_props p c y0 hy).2.2.2
        show y0.owners.count p.uid ≤ 1
        rw [hown]
        simp

theorem componentLoop_cons_eq (p : PlatformAdmin) (c : Component)
    (rest : List Component) (st st1 : List ServiceT × List YurtAppSetT × Nat)
    (h : componentStep p c st = some st1) :
    componentLoop p (c :: rest) st = componentLoop p rest st1 := by
  conv_lhs => rw [componentLoop]; simp only [h]

theorem componentLoop_nil_eq (p : PlatformAdmin)
    (st : List ServiceT × List YurtAppSetT × Nat) :
    componentLoop p [] st = some st := rfl

theorem componentLoop_preserve (p : PlatformAdmin) (comps : List Component) :
    ∀ (st st' : List ServiceT × List YurtAppSetT × Nat),
    componentLoop p comps st = some st' → ∀ c : Component,
    compEstab p c st.1 st.2.1 → compEstab p c st'.1 st'.2.1 := by
  induction comps with
  | nil =>
    intro st st' h c hc
    rw [componentLoop_nil_eq] at h
    cases h
    exact hc
  | cons c0 rest ih =>
    intro st st' h c hc
    obtain ⟨svcs, yass, rdy⟩ := st
    cases hs : componentStep p c0 (svcs, yass, rdy) with
    | none =>
      unfold componentLoop at h
      rw [hs] at h
      cases h
    | some st1 =>
      rw [componentLoop_cons_eq p c0 rest _ st1 hs] at h
      exact ih st1 st' h c (componentStep_preserve p c0 c svcs yass rdy st1 hs hc)

theorem componentLoop_estab_all (p : PlatformAdmin) (comps : List Component) :
    ∀ (st st' : List ServiceT × List YurtAppSetT × Nat),
    componentLoop p comps st = some st' →
    ∀ c ∈ comps, compEstab p c st'.1 st'.2.1 := by
  induction comps with
  | nil =>
    intro st st' _ c hc
    cases hc
  | cons c0 rest ih =>
    intro st st' h c hcmem
    obtain ⟨svcs, yass, rdy⟩ := st
    cases hs : componentStep p c0 (svcs, yass, rdy) with
    | none =>
      unfold componentLoop at h
      rw [hs] at h
      cases h
    | some st1 =>
      rw [componentLoop_cons_eq p c0 rest _ st1 hs] at h
      rcases List.mem_cons.mp hcmem with he | hr
      · subst he
        exact componentLoop_preserve p rest st1 st' h c
          (componentStep_estab p c svcs yass rdy st1 hs)
      · exact ih st1 st' h c hr

theorem componentLoop_contrib (p : PlatformAdmin) (comps : List Component) :
    ∀ (st st' : List ServiceT × List YurtAppSetT × Nat),
    componentLoop p comps st = some st' → ∀ c : Component,
    contribOf p c st'.2.1 = contribOf p c st.2.1 := by
  induction comps with
  | nil =>
    intro st st' h c
    rw [componentLoop_nil_eq] at h
    cases h
    rfl
  | cons c0 rest ih =>
    intro st st' h c
    obtain ⟨svcs, yass, rdy⟩ := st
    cases hs : componentStep p c0 (svcs, yass, rdy) with
    | none =>
      unfold componentLoop at h
      rw [hs] at h
      cases h
    | some st1 =>
      rw [componentLoop_cons_eq p c0 rest _ st1 hs] at h
      rw [ih st1 st' h c]
      exact componentStep_contrib p c0 c svcs yass rdy st1 hs

theorem componentLoop_WF (p : PlatformAdmin) (comps : List Component) :
    ∀ (st st' : List ServiceT × List YurtAppSetT × Nat),
    componentLoop p comps st = some st' →
    ownersWFl svcKind p.uid st.1 → ownersWFl yasKind p.uid st.2.1 →
    ownersWFl svcKind p.uid st'.1 ∧ ownersWFl yasKind p.uid st'.2.1 := by
  induction comps with
  | nil =>
    intro st st' h hWs hWy
    rw [componentLoop_nil_eq] at h
    cases h
    exact ⟨hWs, hWy⟩
  | cons c0 rest ih =>
    intro st st' h hWs hWy
    obtain ⟨svcs, yass, rdy⟩ := st
    cases hs : componentStep p c0 (svcs, yass, rdy) with
    | none =>
      unfold componentLoop at h
      rw [hs] at h
      cases h
    | some st1 =>
      rw [componentLoop_cons_eq p c0 rest _ st1 hs] at h
      obtain ⟨hWs1, hWy1⟩ := componentStep_WF p c0 svcs yass rdy st1 hs hWs hWy
      exact ih st1 st' h hWs1 hWy1

theorem countContrib_cons (p : PlatformAdmin) (c : Component)
    (comps : List Component) (yass : List YurtAppSetT) :
    countContrib p (c :: comps) yass =
      (if contribOf p c yass then 1 else 0) + countContrib p comps yass := by
  unfold countContrib
  rw [List.filter_cons]
  by_cases hb : contribOf p c yass = true
  · simp [hb, Nat.add_comm]
  · simp [bool_eq_false hb]

theorem componentLoop_count (p : PlatformAdmin) (comps : List Component) :
    ∀ (svcs : List ServiceT) (yass : List YurtAppSetT) (r : Nat)
    (st' : List ServiceT × List YurtAppSetT × Nat),
    componentLoop p comps (svcs, yass, r) = some st' →
    st'.2.2 = r + countContrib p comps st'.2.1 := by
  induction comps with
  | nil =>
    intro svcs yass r st' h
    rw [componentLoop_nil_eq] at h
    cases h
    simp [countContrib]
  | cons c rest ih =>
    intro svcs yass r st' h
    cases hf : yass.find? (fun z => z.name == c.name) with
    | some y =>
      have hstep := componentStep_found p c svcs yass r y hf
      rw [componentLoop_cons_eq p c rest _ _ hstep] at h
      have hq := ih _ _ _ _ h
      have hc1 : contribOf p c st'.2.1 = contribOf p c yass := by
        rw [componentLoop_contrib p rest _ st' h c]
        exact componentStep_contrib p c c svcs yass r _ hstep
      have hc2 : contribOf p c yass = (joinYurtAppSetPool p y).2 := by
        unfold contribOf
        rw [hf]
      rw [countContrib_cons, hc1, hc2]
      rw [hq]
      by_cases hb : (joinYurtAppSetPool p y).2 = true
      · simp only [hb, if_true]
        omega
      · simp only [bool_eq_false hb, Bool.false_eq_true, if_false]
        omega
    | none =>
      cases hy : handleYurtAppSet p c with
      | none =>
        exfalso
        unfold componentLoop componentStep at h
        dsimp only at h
        rw [hf, hy] at h
        cases h
      | some y0 =>
        have hstep := componentStep_absent p c svcs yass r y0 hf hy
        rw [componentLoop_cons_eq p c rest _ _ hstep] at h
        have hq := ih _ _ _ _ h
        have hc1 : contribOf p c st'.2.1 = contribOf p c yass := by
          rw [componentLoop_contrib p rest _ st' h c]
          exact componentStep_contrib p c c svcs yass r _ hstep
        have hc2 : contribOf p c yass = false := by
          unfold contribOf
          rw [hf]
        rw [countContrib_cons, hc1, hc2]
        rw [hq]
        simp only [Bool.false_eq_true, if_false]
        omega

theorem componentLoop_of_estab (p : PlatformAdmin) (comps : List Component) :
    ∀ (svcs : List ServiceT) (yass : List YurtAppSetT) (r : Nat),
    (∀ c ∈ comps, compEstab p c svcs yass) →
    componentLoop p comps (svcs, yass, r) =
      some (svcs, yass, r + countContrib p comps yass) := by
  induction comps with
  | nil =>
    intro svcs yass r _
    rw [componentLoop_nil_eq]
    simp [countContrib]
  | cons c rest ih =>
    intro svcs yass r h
    have hstep := componentStep_stable p c svcs yass r (h c (List.mem_cons_self c rest))
    rw [componentLoop_cons_eq p c rest _ _ hstep]
    rw [ih svcs yass _ (fun c' hc' => h c' (List.mem_cons_of_mem c hc'))]
    rw [countContrib_cons]
    by_cases hb : contribOf p c yass = true
    · simp only [hb, if_true]
      have harith : r + 1 + countContrib p rest yass =
          r + (1 + countContrib p rest yass) := by
        omega
      rw [harith]
    · simp only [bool_eq_false hb, Bool.false_eq_true, if_false]
      rw [Nat.zero_add]

theorem catalogComponents_parent_congr (cfg : ControllerConfig)
    (p : PlatformAdmin) (stx : PAStatus) (f : List String) :
    catalogComponents cfg { p with status := stx, finalizers := f } =
      catalogComponents cfg p := rfl

theorem componentStep_parent_congr (p : PlatformAdmin) (stx : PAStatus)
    (f : List String) (c : Component)
    (st : List ServiceT × List YurtAppSetT × Nat) :
    componentStep { p with status := stx, finalizers := f } c st =
      componentStep p c st := rfl

theorem componentLoop_parent_congr (p : PlatformAdmin) (stx : PAStatus)
    (f : List String) (comps : List Component) :
    ∀ st : List ServiceT × List YurtAppSetT × Nat,
    componentLoop { p with status := stx, finalizers := f } comps st =
      componentLoop p comps st := by
  induction comps with
  | nil =>
    intro st
    rfl
  | cons c rest ih =>
    intro st
    cases hs : componentStep p c st with
    | none =>
      unfold componentLoop
      rw [componentStep_parent_congr p stx f c st, hs]
    | some st1 =>
      unfold componentLoop
      rw [componentStep_parent_congr p stx f c st, hs]
      exact ih st1

theorem pa_update_congr_component (cfg : ControllerConfig) (p : PlatformAdmin)
    (stx : PAStatus) (f : List String) (svcs : List ServiceT)
    (yass : List YurtAppSetT) :
    reconcileComponent cfg { p with status := stx, finalizers := f } svcs yass =
      reconcileComponent cfg p svcs yass := by
  unfold reconcileComponent
  simp only [componentLoop_parent_congr p stx f,
    catalogComponents_parent_congr cfg p stx f]

theorem pa_update_congr_configmap (cfg : ControllerConfig) (p : PlatformAdmin)
    (stx : PAStatus) (f : List String) (cms : List ConfigMapT) :
    reconcileConfigmap cfg { p with status := stx, finalizers := f } cms =
      reconcileConfigmap cfg p cms := rfl

theorem pa_update_congr_desired (cfg : ControllerConfig) (p : PlatformAdmin)
    (stx : PAStatus) (f : List String) :
    desiredComponents cfg { p with status := stx, finalizers := f } =
      desiredComponents cfg p := rfl

theorem addFinalizer_contains (p : PlatformAdmin) :
    (addFinalizer p).finalizers.contains platformAdminFinalizer = true := by
  unfold addFinalizer
  dsimp only
  by_cases hc : p.finalizers.contains platformAdminFinalizer = true
  · simp only [hc, if_true]
  · simp only [bool_eq_false hc, Bool.false_eq_true, if_false]
    exact List.elem_iff.mpr
      (List.mem_append_right _ (List.mem_singleton.mpr rfl))

theorem addFinalizer_stable (p : PlatformAdmin)
    (h : p.finalizers.contains platformAdminFinalizer = true) :
    (addFinalizer p).finalizers = p.finalizers := by
  unfold addFinalizer
  dsimp only
  simp only [h, if_true]

theorem setPA_counts (st : PAStatus) (c : PACondition) :
    (setPACondition st c).readyComponentNum = st.readyComponentNum ∧
    (setPACondition st c).unreadyComponentNum = st.unreadyComponentNum ∧
    (setPACondition st c).ready = st.ready ∧
    (setPACondition st c).initialized = st.initialized :=
  ⟨rfl, rfl, rfl, rfl⟩

theorem setPA_estab (st : PAStatus) (c : PACondition) :
    condEstab c (setPACondition st c) := by
  unfold setPACondition condEstab
  dsimp only
  by_cases ha : st.conditions.any (fun d => d.ctype == c.ctype) = true
  · simp only [ha, if_true]
    constructor
    · obtain ⟨d0, hd0, hp0⟩ := List.any_eq_true.mp ha
      apply List.any_eq_true.mpr
      refine ⟨_, List.mem_map_of_mem _ hd0, ?_⟩
      simp only [hp0, if_true]
      simp
    · intro d hd hmatch
      rcases List.mem_map.mp hd with ⟨d0, hd0, he⟩
      by_cases hm : (d0.ctype == c.ctype) = true
      · rw [← he]
        simp only [hm, if_true]
      · have hdd : d = d0 := by
          rw [← he]
          simp [bool_eq_false hm]
        rw [hdd] at hmatch
        exact absurd hmatch hm
  · simp only [bool_eq_false ha, Bool.false_eq_true, if_false]
    constructor
    · apply List.any_eq_true.mpr
      exact ⟨c, List.mem_append_right _ (List.mem_singleton.mpr rfl), by simp⟩
    · intro d hd hmatch
      rcases List.mem_append.mp hd with h1 | h2
      · exfalso
        apply ha
        exact List.any_eq_true.mpr ⟨d, h1, hmatch⟩
      · exact List.mem_singleton.mp h2

theorem setPA_preserve (st : PAStatus) (c c' : PACondition)
    (hne : ¬ c'.ctype = c.ctype) (h : condEstab c st) :
    condEstab c (setPACondition st c') := by
  obtain ⟨hany, hall⟩ := h
  unfold setPACondition condEstab
  dsimp only
  by_cases ha : st.conditions.any (fun d => d.ctype == c'.ctype) = true
  · simp only [ha, if_true]
    constructor
    · obtain ⟨d0, hd0, hp0⟩ := List.any_eq_true.mp hany
      have hm : (d0.ctype == c'.ctype) = false := by
        cases hb : (d0.ctype == c'.ctype) with
        | false => rfl
        | true =>
          exfalso
          apply hne
          rw [← beq_iff_eq.mp hb]
          exact beq_iff_eq.mp hp0
      apply List.any_eq_true.mpr
      refine ⟨_, List.mem_map_of_mem _ hd0, ?_⟩
      simp only [hm, Bool.false_eq_true, if_false]
      exact hp0
    · intro d hd hmatch
      rcases List.mem_map.mp hd with ⟨d0, hd0, he⟩
      by_cases hm : (d0.ctype == c'.ctype) = true
      · exfalso
        have hd' : d = c' := by
          rw [← he]
          simp [hm]
        rw [hd'] at hmatch
        exact hne (beq_iff_eq.mp hmatch)
      · have hd' : d = d0 := by
          rw [← he]
          simp [bool_eq_false hm]
        rw [hd'] at hmatch
        rw [hd']
        exact hall d0 hd0 hmatch
  · simp only [bool_eq_false ha, Bool.false_eq_true, if_false]
    constructor
    · obtain ⟨d0, hd0, hp0⟩ := List.any_eq_true.mp hany
      exact List.any_eq_true.mpr ⟨d0, List.mem_append_left _ hd0, hp0⟩
    · intro d hd hmatch
      rcases List.mem_append.mp hd with h1 | h2
      · exact hall d h1 hmatch
      · exfalso
        rw [List.mem_singleton.mp h2] at hmatch
        exact hne (beq_iff_eq.mp hmatch)

theorem setPA_stable (st : PAStatus) (c : PACondition) (h : condEstab c st) :
    setPACondition st c = st := by
  obtain ⟨hany, hall⟩ := h
  unfold setPACondition
  rw [hany]
  simp only [if_true]
  have hmap : st.conditions.map (fun d => if d.ctype == c.ctype then c else d) =
      st.conditions := by
    apply listMapId
    intro d hd
    by_cases hm : (d.ctype == c.ctype) = true
    · simp only [hm, if_true]
      exact (hall d hd hm).symm
    · simp only [bool_eq_false hm, Bool.false_eq_true, if_false]
  rw [hmap]

theorem condEstab_counts (c : PACondition) (st : PAStatus) (a b : Nat)
    (h : condEstab c st) :
    condEstab c { st with readyComponentNum := a, unreadyComponentNum := b } := h

theorem condEstab_ready (c : PACondition) (st : PAStatus) (b : Bool)
    (h : condEstab c st) :
    condEstab c { st with ready := b } := h

theorem pastatus_eta_counts (st : PAStatus) :
    { st with readyComponentNum := st.readyComponentNum,
              unreadyComponentNum := st.unreadyComponentNum } = st := rfl

theorem pastatus_eta_ready (st : PAStatus) :
    { st with ready := st.ready } = st := rfl

theorem gc_svc_estab (p : PlatformAdmin) (c : Component) (need : List String)
    (svcs : List ServiceT) (hneed : need.contains c.name = true)
    (h : svcEstab p c svcs) :
    svcEstab p c (gcSweep svcKind p.uid LabelService need svcs) := by
  rcases h with h | ⟨hany, hall⟩
  · exact Or.inl h
  · right
    constructor
    · obtain ⟨s0, hs0, hp0⟩ := List.any_eq_true.mp hany
      have hn0 : need.contains s0.name = true := by
        rw [beq_iff_eq.mp hp0]
        exact hneed
      apply List.any_eq_true.mpr
      exact ⟨s0, gcSweep_keep svcKind p.uid LabelService need svcs s0 hs0 hn0, hp0⟩
    · intro s' hs' hmatch
      exact hall s'
        (gcSweep_mem_need svcKind p.uid LabelService c.name need svcs s' hs' hmatch hneed)
        hmatch

theorem gc_yas_estab (p : PlatformAdmin) (c : Component) (need : List String)
    (yass : List YurtAppSetT) (hneed : need.contains c.name = true)
    (h : yasEstab p c yass) :
    yasEstab p c (gcSweep yasKind p.uid LabelDeployment need yass) := by
  obtain ⟨hany, hall⟩ := h
  constructor
  · obtain ⟨y0, hy0, hp0⟩ := List.any_eq_true.mp hany
    have hn0 : need.contains y0.name = true := by
      rw [beq_iff_eq.mp hp0]
      exact hneed
    apply List.any_eq_true.mpr
    exact ⟨y0, gcSweep_keep yasKind p.uid LabelDeployment need yass y0 hy0 hn0, hp0⟩
  · intro z' hz' hmatch
    exact hall z'
      (gcSweep_mem_need yasKind p.uid LabelDeployment c.name need yass z' hz' hmatch hneed)
      hmatch

theorem gc_contrib (p : PlatformAdmin) (c : Component) (need : List String)
    (yass : List YurtAppSetT) (hneed : need.contains c.name = true) :
    contribOf p c (gcSweep yasKind p.uid LabelDeployment need yass) =
      contribOf p c yass := by
  have heq : (gcSweep yasKind p.uid LabelDeployment need yass).find?
        (fun y => y.name == c.name) =
      yass.find? (fun y => y.name == c.name) :=
    gcSweep_find?_eq yasKind p.uid LabelDeployment c.name need yass hneed
  unfold contribOf
  rw [heq]

theorem reconcileComponent_err (cfg : ControllerConfig) (p : PlatformAdmin)
    (svcs : List ServiceT) (yass : List YurtAppSetT) (e : Unit)
    (ha : annotationToComponent p.annots = Except.error e) :
    reconcileComponent cfg p svcs yass =
      some { services := svcs, yurtappsets := yass, ready := 0,
             total := (catalogComponents cfg p).length, ok := false,
             decodeErr := true } := by
  unfold reconcileComponent
  simp only [ha]

theorem reconcileComponent_panic (cfg : ControllerConfig) (p : PlatformAdmin)
    (svcs : List ServiceT) (yass : List YurtAppSetT) (adds : List Component)
    (ha : annotationToComponent p.annots = Except.ok adds)
    (hloop : componentLoop p (catalogComponents cfg p ++ adds) (svcs, yass, 0) =
      none) :
    reconcileComponent cfg p svcs yass = none := by
  unfold reconcileComponent
  simp only [ha, hloop]

theorem reconcileComponent_run (cfg : ControllerConfig) (p : PlatformAdmin)
    (svcs : List ServiceT) (yass : List YurtAppSetT) (adds : List Component)
    (svcs1 : List ServiceT) (yass1 : List YurtAppSetT) (rdy : Nat)
    (ha : annotationToComponent p.annots = Except.ok adds)
    (hloop : componentLoop p (catalogComponents cfg p ++ adds) (svcs, yass, 0) =
      some (svcs1, yass1, rdy)) :
    reconcileComponent cfg p svcs yass =
      some { services := gcSweep svcKind p.uid LabelService
               ((catalogComponents cfg p ++ adds).map (fun c => c.name)) svcs1,
             yurtappsets := gcSweep yasKind p.uid LabelDeployment
               ((catalogComponents cfg p ++ adds).map (fun c => c.name)) yass1,
             ready := rdy, total := (catalogComponents cfg p ++ adds).length,
             ok := rdy == (catalogComponents cfg p ++ adds).length,
             decodeErr := false } := by
  unfold reconcileComponent
  simp only [ha, hloop]

/-- The component pass is idempotent: feeding its own output back in yields
the same outcome record. -/
theorem reconcileComponent_idem (cfg : ControllerConfig) (p : PlatformAdmin)
    (svcs : List ServiceT) (yass : List YurtAppSetT) (out : ComponentOutcome)
    (hWs : ownersWFl svcKind p.uid svcs) (hWy : ownersWFl yasKind p.uid yass)
    (h : reconcileComponent cfg p svcs yass = some out) :
    reconcileComponent cfg p out.services out.yurtappsets = some out := by
  cases ha : annotationToComponent p.annots with
  | error e =>
    rw [reconcileComponent_err cfg p svcs yass e ha] at h
    cases h
    exact reconcileComponent_err cfg p svcs yass e ha
  | ok adds =>
    cases hloop : componentLoop p (catalogComponents cfg p ++ adds)
        (svcs, yass, 0) with
    | none =>
      rw [reconcileComponent_panic cfg p svcs yass adds ha hloop] at h
      cases h
    | some st1 =>
      obtain ⟨svcs1, yass1, rdy⟩ := st1
      rw [reconcileComponent_run cfg p svcs yass adds svcs1 yass1 rdy ha hloop] at h
      cases h
      dsimp only
      have hestab : ∀ c ∈ catalogComponents cfg p ++ adds,
          compEstab p c svcs1 yass1 :=
        componentLoop_estab_all p (catalogComponents cfg p ++ adds)
          (svcs, yass, 0) (svcs1, yass1, rdy) hloop
      have hneed : ∀ c ∈ catalogComponents cfg p ++ adds,
          ((catalogComponents cfg p ++ adds).map (fun c => c.name)).contains
            c.name = true :=
        fun c hc => List.elem_iff.mpr (List.mem_map_of_mem _ hc)
      have hestab2 : ∀ c ∈ catalogComponents cfg p ++ adds,
          compEstab p c
            (gcSweep svcKind p.uid LabelService
              ((catalogComponents cfg p ++ adds).map (fun c => c.name)) svcs1)
            (gcSweep yasKind p.uid LabelDeployment
              ((catalogComponents cfg p ++ adds).map (fun c => c.name)) yass1) := by
        intro c hc
        exact ⟨gc_svc_estab p c _ svcs1 (hneed c hc) (hestab c hc).1,
               gc_yas_estab p c _ yass1 (hneed c hc) (hestab c hc).2⟩
      have hloop2 := componentLoop_of_estab p (catalogComponents cfg p ++ adds)
        (gcSweep svcKind p.uid LabelService
          ((catalogComponents cfg p ++ adds).map (fun c => c.name)) svcs1)
        (gcSweep yasKind p.uid LabelDeployment
          ((catalogComponents cfg p ++ adds).map (fun c => c.name)) yass1)
        0 hestab2
      have hWloop := componentLoop_WF p (catalogComponents cfg p ++ adds)
        (svcs, yass, 0) (svcs1, yass1, rdy) hloop hWs hWy
      have hcount2 : countContrib p (catalogComponents cfg p ++ adds)
          (gcSweep yasKind p.uid LabelDeployment
            ((catalogComponents cfg p ++ adds).map (fun c => c.name)) yass1) =
          countContrib p (catalogComponents cfg p ++ adds) yass1 := by
        unfold countContrib
        congr 1
        apply List.filter_congr
        intro c hc
        exact gc_contrib p c _ yass1 (hneed c hc)
      have hrdy : rdy = 0 + countContrib p (catalogComponents cfg p ++ adds) yass1 :=
        componentLoop_count p (catalogComponents cfg p ++ adds) svcs yass 0
          (svcs1, yass1, rdy) hloop
      rw [reconcileComponent_run cfg p _ _ adds _ _ _ ha hloop2]
      rw [gcSweep_idem svcKind p.uid LabelService _ svcs1 hWloop.1,
          gcSweep_idem yasKind p.uid LabelDeployment _ yass1 hWloop.2,
          hcount2, ← hrdy]

theorem nodup_name_unique {yass : List YurtAppSetT}
    (hnd : (yass.map (fun y => y.name)).Nodup) {z y : YurtAppSetT}
    (hz : z ∈ yass) (hy : y ∈ yass) (he : z.name = y.name) : z = y := by
  induction yass with
  | nil => cases hz
  | cons a t ih =>
    obtain ⟨hna, hnt⟩ := List.nodup_cons.mp hnd
    rcases List.mem_cons.mp hz with rfl | hz'
    · rcases List.mem_cons.mp hy with rfl | hy'
      · rfl
      · exfalso
        apply hna
        show z.name ∈ List.map (fun y => y.name) t
        rw [he]
        exact List.mem_map_of_mem _ hy'
    · rcases List.mem_cons.mp hy with rfl | hy'
      · exfalso
        apply hna
        show y.name ∈ List.map (fun y => y.name) t
        rw [← he]
        exact List.mem_map_of_mem _ hz'
      · exact ih hnt hz' hy'

theorem patchPools_names (n : String) (pools' : List Pool)
    (yass : List YurtAppSetT) :
    (patchPools n pools' yass).map (fun y => y.name) =
      yass.map (fun y => y.name) := by
  unfold patchPools
  rw [List.map_map]
  apply List.map_congr_left
  intro z _
  show ((if z.name == n then { z with pools := pools' } else z)).name = z.name
  split
  · rfl
  · rfl

theorem reconcileDeleteLoop_names (pn : String) (patchOk : String → Bool)
    (names : List String) :
    ∀ (yass res : List YurtAppSetT) (flag : Bool),
    reconcileDeleteLoop pn patchOk names yass = some (res, flag) →
    res.map (fun y => y.name) = yass.map (fun y => y.name) := by
  induction names with
  | nil =>
    intro yass res flag h
    rw [reconcileDeleteLoop_nil] at h
    cases h
    rfl
  | cons n rest ih =>
    intro yass res flag h
    cases hf : yass.find? (fun y => y.name == n) with
    | none =>
      rw [reconcileDeleteLoop_cons_none pn patchOk n rest yass hf] at h
      exact ih yass res flag h
    | some y =>
      cases hr : removePools pn y.pools with
      | none =>
        rw [reconcileDeleteLoop_cons_panic pn patchOk n rest yass y hf hr] at h
        cases h
      | some pools' =>
        rw [reconcileDeleteLoop_cons_found pn patchOk n rest yass y pools' hf hr] at h
        by_cases hp : patchOk n = true
        · rw [hp] at h
          simp only [if_true] at h
          rw [ih _ res flag h]
          exact patchPools_names n pools' yass
        · rw [bool_eq_false hp] at h
          simp only [Bool.false_eq_true, if_false] at h
          cases h
          rfl

theorem reconcileDeleteLoop_allOk_flag (pn : String) (names : List String) :
    ∀ (yass res : List YurtAppSetT) (flag : Bool),
    reconcileDeleteLoop pn (fun _ => true) names yass = some (res, flag) →
    flag = true := by
  induction names with
  | nil =>
    intro yass res flag h
    rw [reconcileDeleteLoop_nil] at h
    cases h
    rfl
  | cons n rest ih =>
    intro yass res flag h
    cases hf : yass.find? (fun y => y.name == n) with
    | none =>
      rw [reconcileDeleteLoop_cons_none pn _ n rest yass hf] at h
      exact ih yass res flag h
    | some y =>
      cases hr : removePools pn y.pools with
      | none =>
        rw [reconcileDeleteLoop_cons_panic pn _ n rest yass y hf hr] at h
        cases h
      | some pools' =>
        rw [reconcileDeleteLoop_cons_found pn _ n rest yass y pools' hf hr] at h
        simp only [if_true] at h
        exact ih _ res flag h

theorem reconcileDeleteLoop_stable (pn : String) (ns : List String) :
    ∀ yass : List YurtAppSetT,
    (yass.map (fun y => y.name)).Nodup →
    (∀ n ∈ ns, yassClean pn n yass) →
    reconcileDeleteLoop pn (fun _ => true) ns yass = some (yass, true) := by
  induction ns with
  | nil =>
    intro yass _ _
    exact reconcileDeleteLoop_nil pn _ yass
  | cons n rest ih =>
    intro yass hnd hclean
    cases hf : yass.find? (fun y => y.name == n) with
    | none =>
      rw [reconcileDeleteLoop_cons_none pn _ n rest yass hf]
      exact ih yass hnd (fun m hm => hclean m (List.mem_cons_of_mem n hm))
    | some y =>
      have hy : y ∈ yass := List.mem_of_find?_eq_some hf
      have hyn := List.find?_some hf
      have hcl := hclean n (List.mem_cons_self n rest) y hy hyn
      have hnone : ∀ q ∈ y.pools, (q.name == pn) = false := by
        intro q hq
        exact bool_eq_false (List.filter_eq_nil_iff.mp hcl q hq)
      have hrp := removePools_nomatch pn y.pools hnone
      rw [reconcileDeleteLoop_cons_found pn _ n rest yass y y.pools hf hrp]
      simp only [if_true]
      have hmap : patchPools n y.pools yass = yass := by
        apply listMapId
        intro z hz
        by_cases hm : (z.name == n) = true
        · have hzy : z = y := by
            apply nodup_name_unique hnd hz hy
            rw [beq_iff_eq.mp hm, beq_iff_eq.mp hyn]
          rw [hzy]
          simp only [hyn, if_true]
        · simp only [bool_eq_false hm, Bool.false_eq_true, if_false]
      rw [hmap]
      exact ih yass hnd (fun m hm => hclean m (List.mem_cons_of_mem n hm))

theorem stateWF_parts (s : ClusterState) (p : PlatformAdmin)
    (hp : s.parent = some p) (h : stateWFb s = true) :
    ownersWFl cmKind p.uid s.configmaps ∧ ownersWFl svcKind p.uid s.services ∧
    ownersWFl yasKind p.uid s.yurtappsets ∧ yassWF p.poolName s.yurtappsets ∧
    (s.yurtappsets.map (fun y => y.name)).Nodup := by
  unfold stateWFb at h
  rw [hp] at h
  simp only [Bool.and_eq_true] at h
  obtain ⟨⟨ho, hpw⟩, hnd⟩ := h
  unfold ownersWFb at ho
  simp only [Bool.and_eq_true] at ho
  obtain ⟨⟨hcm, hsv⟩, hya⟩ := ho
  refine ⟨?_, ?_, ?_, ?_, ?_⟩
  · intro o ho'
    exact of_decide_eq_true (List.all_eq_true.mp hcm o ho')
  · intro o ho'
    exact of_decide_eq_true (List.all_eq_true.mp hsv o ho')
  · intro o ho'
    exact of_decide_eq_true (List.all_eq_true.mp hya o ho')
  · intro y hy
    unfold poolsWFb at hpw
    exact of_decide_eq_true (List.all_eq_true.mp hpw y hy)
  · unfold yasNamesNodupb at hnd
    exact of_decide_eq_true hnd

theorem reconcileNormal_none (cfg : ControllerConfig) (p : PlatformAdmin)
    (s : ClusterState)
    (hc : reconcileComponent cfg p s.services s.yurtappsets = none) :
    reconcileNormal cfg p s = none := by
  unfold reconcileNormal
  simp only [hc]

theorem reconcileNormal_decodeErr (cfg : ControllerConfig) (p : PlatformAdmin)
    (s : ClusterState) (out : ComponentOutcome)
    (hc : reconcileComponent cfg p s.services s.yurtappsets = some out)
    (hd : out.decodeErr = true) :
    reconcileNormal cfg p s =
      some ({ s with configmaps := reconcileConfigmap cfg p s.configmaps,
                     services := out.services, yurtappsets := out.yurtappsets },
            setPACondition
              { setPACondition p.status
                  { ctype := CondType.configmapAvailable, status := true,
                    reason := "", message := "" } with
                readyComponentNum := out.ready,
                unreadyComponentNum := out.total - out.ready }
              { ctype := CondType.componentAvailable, status := false,
                reason := "ComponentProvisioning", message := "decode error" },
            RResult.err) := by
  unfold reconcileNormal
  simp only [hc]
  rw [if_pos hd]

theorem reconcileNormal_okBranch (cfg : ControllerConfig) (p : PlatformAdmin)
    (s : ClusterState) (out : ComponentOutcome)
    (hc : reconcileComponent cfg p s.services s.yurtappsets = some out)
    (hd : out.decodeErr = false) (hk : out.ok = true) :
    reconcileNormal cfg p s =
      some ({ { s with configmaps := reconcileConfigmap cfg p s.configmaps,
                       services := out.services,
                       yurtappsets := out.yurtappsets } with
               parent := some { p with finalizers := (addFinalizer p).finalizers } },
            { setPACondition
                { setPACondition p.status
                    { ctype := CondType.configmapAvailable, status := true,
                      reason := "", message := "" } with
                  readyComponentNum := out.ready,
                  unreadyComponentNum := out.total - out.ready }
                { ctype := CondType.componentAvailable, status := true,
                  reason := "", message := "" } with ready := true },
            RResult.ok) := by
  unfold reconcileNormal
  simp only [hc]
  have hnd : ¬ out.decodeErr = true := by
    rw [hd]
    exact Bool.false_ne_true
  rw [if_neg hnd, if_pos hk]

theorem reconcileNormal_requeue (cfg : ControllerConfig) (p : PlatformAdmin)
    (s : ClusterState) (out : ComponentOutcome)
    (hc : reconcileComponent cfg p s.services s.yurtappsets = some out)
    (hd : out.decodeErr = false) (hk : out.ok = false) :
    reconcileNormal cfg p s =
      some ({ s with configmaps := reconcileConfigmap cfg p s.configmaps,
                     services := out.services, yurtappsets := out.yurtappsets },
            setPACondition
              { setPACondition p.status
                  { ctype := CondType.configmapAvailable, status := true,
                    reason := "", message := "" } with
                readyComponentNum := out.ready,
                unreadyComponentNum := out.total - out.ready }
              { ctype := CondType.componentAvailable, status := false,
                reason := "ComponentProvisioning", message := "" },
            RResult.requeue) := by
  unfold reconcileNormal
  simp only [hc]
  have hnd : ¬ out.decodeErr = true := by
    rw [hd]
    exact Bool.false_ne_true
  have hnk : ¬ out.ok = true := by
    rw [hk]
    exact Bool.false_ne_true
  rw [if_neg hnd, if_neg hnk]

theorem reconcile_none_eq (cfg : ControllerConfig) (s : ClusterState)
    (hp : s.parent = none) :
    reconcile cfg s =
      some { state := s, result := RResult.ok, statusPersisted := false } := by
  unfold reconcile
  simp only [hp]

theorem reconcile_normal_eq2 (cfg : ControllerConfig) (s : ClusterState)
    (p q : PlatformAdmin) (s1 : ClusterState) (st' : PAStatus) (r : RResult)
    (hp : s.parent = some p) (hdel : p.deletionRequested = false)
    (hn : reconcileNormal cfg p s = some (s1, st', r))
    (hq : s1.parent = some q) :
    reconcile cfg s =
      some { state := { s1 with parent := some { q with status := st' } },
             result := r, statusPersisted := true } := by
  unfold reconcile
  simp only [hp]
  rw [hdel]
  simp only [Bool.false_eq_true, if_false, hn, hq, Option.map_some']

theorem reconcile_normal_none_eq (cfg : ControllerConfig) (s : ClusterState)
    (p : PlatformAdmin)
    (hp : s.parent = some p) (hdel : p.deletionRequested = false)
    (hn : reconcileNormal cfg p s = none) :
    reconcile cfg s = none := by
  unfold reconcile
  simp only [hp]
  rw [hdel]
  simp only [Bool.false_eq_true, if_false, hn]

theorem reconcile_delete_eq (cfg : ControllerConfig) (s : ClusterState)
    (p : PlatformAdmin) (s' : ClusterState) (r : RResult)
    (hp : s.parent = some p) (hdel : p.deletionRequested = true)
    (hd : reconcileDelete cfg (fun _ => true) p s = some (s', r)) :
    reconcile cfg s =
      some { state := s', result := r, statusPersisted := false } := by
  unfold reconcile
  simp only [hp]
  rw [hdel]
  simp only [if_true, hd]

theorem reconcile_delete_none_eq (cfg : ControllerConfig) (s : ClusterState)
    (p : PlatformAdmin)
    (hp : s.parent = some p) (hdel : p.deletionRequested = true)
    (hd : reconcileDelete cfg (fun _ => true) p s = none) :
    reconcile cfg s = none := by
  unfold reconcile
  simp only [hp]
  rw [hdel]
  simp only [if_true, hd]

theorem reconcileDelete_decodeErr (cfg : ControllerConfig)
    (patchOk : String → Bool) (p : PlatformAdmin) (s : ClusterState) (e : Unit)
    (ha : desiredComponents cfg p = Except.error e) :
    reconcileDelete cfg patchOk p s = some (s, RResult.err) := by
  unfold reconcileDelete
  simp only [ha]

theorem reconcileDelete_panic (cfg : ControllerConfig)
    (patchOk : String → Bool) (p : PlatformAdmin) (s : ClusterState)
    (desired : List Component)
    (ha : desiredComponents cfg p = Except.ok desired)
    (hl : reconcileDeleteLoop p.poolName patchOk
      (desired.map (fun c => c.name)) s.yurtappsets = none) :
    reconcileDelete cfg patchOk p s = none := by
  unfold reconcileDelete
  simp only [ha, hl]

theorem reconcileDelete_ok (cfg : ControllerConfig)
    (patchOk : String → Bool) (p : PlatformAdmin) (s : ClusterState)
    (desired : List Component) (yass' : List YurtAppSetT)
    (ha : desiredComponents cfg p = Except.ok desired)
    (hl : reconcileDeleteLoop p.poolName patchOk
      (desired.map (fun c => c.name)) s.yurtappsets = some (yass', true)) :
    reconcileDelete cfg patchOk p s =
      some ({ s with
                yurtappsets := yass',
                parent :=
                  some { p with
                           finalizers :=
                             p.finalizers.filter
                               (fun f => !(f == platformAdminFinalizer)) } },
            RResult.ok) := by
  unfold reconcileDelete
  simp only [ha, hl]

theorem normal_second_err (cfg : ControllerConfig) (p : PlatformAdmin)
    (cms : List ConfigMapT) (svcs : List ServiceT) (yass : List YurtAppSetT)
    (cout : ComponentOutcome) (stA : PAStatus) (f : List String)
    (hdel : p.deletionRequested = false)
    (hcm : reconcileConfigmap cfg p cms = cms)
    (hcomp : reconcileComponent cfg p svcs yass = some cout)
    (hsvc : cout.services = svcs) (hyas : cout.yurtappsets = yass)
    (hd : cout.decodeErr = true)
    (hstA : setPACondition
        { setPACondition stA
            { ctype := CondType.configmapAvailable, status := true,
              reason := "", message := "" } with
          readyComponentNum := cout.ready,
          unreadyComponentNum := cout.total - cout.ready }
        { ctype := CondType.componentAvailable, status := false,
          reason := "ComponentProvisioning", message := "decode error" } = stA) :
    reconcile cfg
        { parent := some { p with status := stA, finalizers := f },
          configmaps := cms, services := svcs, yurtappsets := yass } =
      some { state := { parent := some { p with status := stA, finalizers := f },
                        configmaps := cms, services := svcs,
                        yurtappsets := yass },
             result := RResult.err, statusPersisted := true } := by
  have hcomp2 : reconcileComponent cfg { p with status := stA, finalizers := f }
      svcs yass = some cout := by
    rw [pa_update_congr_component]
    exact hcomp
  have hdel2 : ({ p with status := stA, finalizers := f } :
      PlatformAdmin).deletionRequested = false := hdel
  have hn2 := reconcileNormal_decodeErr cfg
    { p with status := stA, finalizers := f }
    { parent := some { p with status := stA, finalizers := f },
      configmaps := cms, services := svcs, yurtappsets := yass } cout hcomp2 hd
  have hrec := reconcile_normal_eq2 cfg
    { parent := some { p with status := stA, finalizers := f },
      configmaps := cms, services := svcs, yurtappsets := yass }
    { p with status := stA, finalizers := f }
    { p with status := stA, finalizers := f } _ _ _ rfl hdel2 hn2 rfl
  rw [hrec]
  dsimp only
  have hcm2 : reconcileConfigmap cfg { p with status := stA, finalizers := f }
      cms = cms := by
    rw [pa_update_congr_configmap]
    exact hcm
  rw [hcm2, hstA, hsvc, hyas]

theorem normal_second_requeue (cfg : ControllerConfig) (p : PlatformAdmin)
    (cms : List ConfigMapT) (svcs : List ServiceT) (yass : List YurtAppSetT)
    (cout : ComponentOutcome) (stA : PAStatus) (f : List String)
    (hdel : p.deletionRequested = false)
    (hcm : reconcileConfigmap cfg p cms = cms)
    (hcomp : reconcileComponent cfg p svcs yass = some cout)
    (hsvc : cout.services = svcs) (hyas : cout.yurtappsets = yass)
    (hd : cout.decodeErr = false) (hk : cout.ok = false)
    (hstA : setPACondition
        { setPACondition stA
            { ctype := CondType.configmapAvailable, status := true,
              reason := "", message := "" } with
          readyComponentNum := cout.ready,
          unreadyComponentNum := cout.total - cout.ready }
        { ctype := CondType.componentAvailable, status := false,
          reason := "ComponentProvisioning", message := "" } = stA) :
    reconcile cfg
        { parent := some { p with status := stA, finalizers := f },
          configmaps := cms, services := svcs, yurtappsets := yass } =
      some { state := { parent := some { p with status := stA, finalizers := f },
                        configmaps := cms, services := svcs,
                        yurtappsets := yass },
             result := RResult.requeue, statusPersisted := true } := by
  have hcomp2 : reconcileComponent cfg { p with status := stA, finalizers := f }
      svcs yass = some cout := by
    rw [pa_update_congr_component]
    exact hcomp
  have hdel2 : ({ p with status := stA, finalizers := f } :
      PlatformAdmin).deletionRequested = false := hdel
  have hn2 := reconcileNormal_requeue cfg
    { p with status := stA, finalizers := f }
    { parent := some { p with status := stA, finalizers := f },
      configmaps := cms, services := svcs, yurtappsets := yass } cout hcomp2 hd hk
  have hrec := reconcile_normal_eq2 cfg
    { parent := some { p with status := stA, finalizers := f },
      configmaps := cms, services := svcs, yurtappsets := yass }
    { p with status := stA, finalizers := f }
    { p with status := stA, finalizers := f } _ _ _ rfl hdel2 hn2 rfl
  rw [hrec]
  dsimp only
  have hcm2 : reconcileConfigmap cfg { p with status := stA, finalizers := f }
      cms = cms := by
    rw [pa_update_congr_configmap]
    exact hcm
  rw [hcm2, hstA, hsvc, hyas]

theorem normal_second_ok (cfg : ControllerConfig) (p : PlatformAdmin)
    (cms : List ConfigMapT) (svcs : List ServiceT) (yass : List YurtAppSetT)
    (cout : ComponentOutcome) (stA : PAStatus) (f : List String)
    (hdel : p.deletionRequested = false)
    (hcm : reconcileConfigmap cfg p cms = cms)
    (hcomp : reconcileComponent cfg p svcs yass = some cout)
    (hsvc : cout.services = svcs) (hyas : cout.yurtappsets = yass)
    (hd : cout.decodeErr = false) (hk : cout.ok = true)
    (hcont : f.contains platformAdminFinalizer = true)
    (hstA : ({ setPACondition
        { setPACondition stA
            { ctype := CondType.configmapAvailable, status := true,
              reason := "", message := "" } with
          readyComponentNum := cout.ready,
          unreadyComponentNum := cout.total - cout.ready }
        { ctype := CondType.componentAvailable, status := true,
          reason := "", message := "" } with ready := true } : PAStatus) = stA) :
    reconcile cfg
        { parent := some { p with status := stA, finalizers := f },
          configmaps := cms, services := svcs, yurtappsets := yass } =
      some { state := { parent := some { p with status := stA, finalizers := f },
                        configmaps := cms, services := svcs,
                        yurtappsets := yass },
             result := RResult.ok, statusPersisted := true } := by
  have hcomp2 : reconcileComponent cfg { p with status := stA, finalizers := f }
      svcs yass = some cout := by
    rw [pa_update_congr_component]
    exact hcomp
  have hdel2 : ({ p with status := stA, finalizers := f } :
      PlatformAdmin).deletionRequested = false := hdel
  have hn2 := reconcileNormal_okBranch cfg
    { p with status := stA, finalizers := f }
    { parent := some { p with status := stA, finalizers := f },
      configmaps := cms, services := svcs, yurtappsets := yass } cout hcomp2 hd hk
  have hrec := reconcile_normal_eq2 cfg
    { parent := some { p with status := stA, finalizers := f },
      configmaps := cms, services := svcs, yurtappsets := yass }
    { p with status := stA, finalizers := f }
    { { p with status := stA, finalizers := f } with
        finalizers := (addFinalizer { p with status := stA, finalizers := f }).finalizers }
    _ _ _ rfl hdel2 hn2 rfl
  rw [hrec]
  dsimp only
  have haf : (addFinalizer { p with status := stA, finalizers := f }).finalizers =
      f := by
    have h0 : ({ p with status := stA, finalizers := f } :
        PlatformAdmin).finalizers.contains platformAdminFinalizer = true := hcont
    exact addFinalizer_stable { p with status := stA, finalizers := f } h0
  rw [haf]
  have hcm2 : reconcileConfigmap cfg { p with status := stA, finalizers := f }
      cms = cms := by
    rw [pa_update_congr_configmap]
    exact hcm
  rw [hcm2, hstA, hsvc, hyas]

theorem status_chain_stable (st0 : PAStatus) (R U : Nat) (c : PACondition)
    (hne : ¬ c.ctype = CondType.configmapAvailable) :
    setPACondition
      { setPACondition
          (setPACondition
            { setPACondition st0
                { ctype := CondType.configmapAvailable, status := true,
                  reason := "", message := "" } with
              readyComponentNum := R, unreadyComponentNum := U } c)
          { ctype := CondType.configmapAvailable, status := true,
            reason := "", message := "" } with
        readyComponentNum := R, unreadyComponentNum := U } c =
    setPACondition
      { setPACondition st0
          { ctype := CondType.configmapAvailable, status := true,
            reason := "", message := "" } with
        readyComponentNum := R, unreadyComponentNum := U } c := by
  have h1 : condEstab
      { ctype := CondType.configmapAvailable, status := true,
        reason := "", message := "" }
      (setPACondition
        { setPACondition st0
            { ctype := CondType.configmapAvailable, status := true,
              reason := "", message := "" } with
          readyComponentNum := R, unreadyComponentNum := U } c) :=
    setPA_preserve _ _ c hne
      (condEstab_counts _ _ R U (setPA_estab st0 _))
  have h2 : condEstab c
      (setPACondition
        { setPACondition st0
            { ctype := CondType.configmapAvailable, status := true,
              reason := "", message := "" } with
          readyComponentNum := R, unreadyComponentNum := U } c) :=
    setPA_estab _ c
  rw [setPA_stable _ _ h1]
  have hcounts :
      ({ (setPACondition
          { setPACondition st0
              { ctype := CondType.configmapAvailable, status := true,
                reason := "", message := "" } with
            readyComponentNum := R, unreadyComponentNum := U } c) with
        readyComponentNum := R, unreadyComponentNum := U } : PAStatus) =
      setPACondition
        { setPACondition st0
            { ctype := CondType.configmapAvailable, status := true,
              reason := "", message := "" } with
          readyComponentNum := R, unreadyComponentNum := U } c :=
    pastatus_eta_counts _
  rw [hcounts]
  exact setPA_stable _ _ h2

theorem status_chain_stable_ok (st0 : PAStatus) (R U : Nat) :
    ({ setPACondition
        { setPACondition
            ({ setPACondition
                { setPACondition st0
                    { ctype := CondType.configmapAvailable, status := true,
                      reason := "", message := "" } with
                  readyComponentNum := R, unreadyComponentNum := U }
                { ctype := CondType.componentAvailable, status := true,
                  reason := "", message := "" } with ready := true } : PAStatus)
            { ctype := CondType.configmapAvailable, status := true,
              reason := "", message := "" } with
          readyComponentNum := R, unreadyComponentNum := U }
        { ctype := CondType.componentAvailable, status := true,
          reason := "", message := "" } with ready := true } : PAStatus) =
    { setPACondition
        { setPACondition st0
            { ctype := CondType.configmapAvailable, status := true,
              reason := "", message := "" } with
          readyComponentNum := R, unreadyComponentNum := U }
        { ctype := CondType.componentAvailable, status := true,
          reason := "", message := "" } with ready := true } := by
  have h1 : condEstab
      { ctype := CondType.configmapAvailable, status := true,
        reason := "", message := "" }
      ({ setPACondition
          { setPACondition st0
              { ctype := CondType.configmapAvailable, status := true,
                reason := "", message := "" } with
            readyComponentNum := R, unreadyComponentNum := U }
          { ctype := CondType.componentAvailable, status := true,
            reason := "", message := "" } with ready := true } : PAStatus) :=
    condEstab_ready _ _ true
      (setPA_preserve _ _ _ (by decide)
        (condEstab_counts _ _ R U (setPA_estab st0 _)))
  have h2 : condEstab
      { ctype := CondType.componentAvailable, status := true,
        reason := "", message := "" }
      ({ setPACondition
          { setPACondition st0
              { ctype := CondType.configmapAvailable, status := true,
                reason := "", message := "" } with
            readyComponentNum := R, unreadyComponentNum := U }
          { ctype := CondType.componentAvailable, status := true,
            reason := "", message := "" } with ready := true } : PAStatus) :=
    condEstab_ready _ _ true (setPA_estab _ _)
  rw [setPA_stable _ _ h1]
  have hcounts :
      ({ ({ setPACondition
            { setPACondition st0
                { ctype := CondType.configmapAvailable, status := true,
                  reason := "", message := "" } with
              readyComponentNum := R, unreadyComponentNum := U }
            { ctype := CondType.componentAvailable, status := true,
              reason := "", message := "" } with ready := true } : PAStatus) with
        readyComponentNum := R, unreadyComponentNum := U } : PAStatus) =
      { setPACondition
          { setPACondition st0
              { ctype := CondType.configmapAvailable, status := true,
                reason := "", message := "" } with
            readyComponentNum := R, unreadyComponentNum := U }
          { ctype := CondType.componentAvailable, status := true,
            reason := "", message := "" } with ready := true } :=
    pastatus_eta_counts _
  rw [hcounts]
  rw [setPA_stable _ _ h2]

theorem delete_second (cfg : ControllerConfig) (p : PlatformAdmin)
    (cms : List ConfigMapT) (svcs : List ServiceT) (yass : List YurtAppSetT)
    (desired : List Component) (f : List String)
    (hdel : p.deletionRequested = true)
    (hdes : desiredComponents cfg p = Except.ok desired)
    (hnd : (yass.map (fun y => y.name)).Nodup)
    (hclean : ∀ nm ∈ desired.map (fun c => c.name), yassClean p.poolName nm yass)
    (hfil : f.filter (fun g => !(g == platformAdminFinalizer)) = f) :
    reconcile cfg
        { parent := some { p with finalizers := f },
          configmaps := cms, services := svcs, yurtappsets := yass } =
      some { state := { parent := some { p with finalizers := f },
                        configmaps := cms, services := svcs,
                        yurtappsets := yass },
             result := RResult.ok, statusPersisted := false } := by
  have hdes2 : desiredComponents cfg { p with finalizers := f } =
      Except.ok desired := by
    have hb : desiredComponents cfg { p with status := p.status, finalizers := f } =
        desiredComponents cfg p := pa_update_congr_desired cfg p p.status f
    exact hb.trans hdes
  have hloop2 : reconcileDeleteLoop
      ({ p with finalizers := f } : PlatformAdmin).poolName (fun _ => true)
      (desired.map (fun c => c.name)) yass = some (yass, true) :=
    reconcileDeleteLoop_stable p.poolName (desired.map (fun c => c.name))
      yass hnd hclean
  have hD2 := reconcileDelete_ok cfg (fun _ => true) { p with finalizers := f }
    { parent := some { p with finalizers := f },
      configmaps := cms, services := svcs, yurtappsets := yass } desired yass
    hdes2 hloop2
  have hdel2 : ({ p with finalizers := f } :
      PlatformAdmin).deletionRequested = true := hdel
  have hrec := reconcile_delete_eq cfg
    { parent := some { p with finalizers := f },
      configmaps := cms, services := svcs, yurtappsets := yass }
    { p with finalizers := f } _ RResult.ok rfl hdel2 hD2
  rw [hrec]
  dsimp only
  have hfil2 : ({ p with finalizers := f } : PlatformAdmin).finalizers.filter
      (fun g => !(g == platformAdminFinalizer)) = f := hfil
  rw [hfil2]

theorem reconcile_idem_normal (cfg : ControllerConfig) (s : ClusterState)
    (p : PlatformAdmin) (out : ReconcileOutcome)
    (hp : s.parent = some p) (hdel : p.deletionRequested = false)
    (hWF : stateWFb s = true)
    (h : reconcile cfg s = some out) :
    reconcile cfg out.state = some out := by
  obtain ⟨hWcm, hWsv, hWya, _, _⟩ := stateWF_parts s p hp hWF
  cases hc : reconcileComponent cfg p s.services s.yurtappsets with
  | none =>
    rw [reconcile_normal_none_eq cfg s p hp hdel
      (reconcileNormal_none cfg p s hc)] at h
    cases h
  | some cout =>
    have hcompIdem :=
      reconcileComponent_idem cfg p s.services s.yurtappsets cout hWsv hWya hc
    have hcmIdem := reconcileConfigmap_idem cfg p s.configmaps hWcm
    cases hd : cout.decodeErr with
    | true =>
      have hn := reconcileNormal_decodeErr cfg p s cout hc hd
      have hrec := reconcile_normal_eq2 cfg s p p _ _ _ hp hdel hn hp
      have hout := Option.some.inj (h.symm.trans hrec)
      subst hout
      dsimp only
      exact normal_second_err cfg p (reconcileConfigmap cfg p s.configmaps)
        cout.services cout.yurtappsets cout
        (setPACondition
          { setPACondition p.status
              { ctype := CondType.configmapAvailable, status := true,
                reason := "", message := "" } with
            readyComponentNum := cout.ready,
            unreadyComponentNum := cout.total - cout.ready }
          { ctype := CondType.componentAvailable, status := false,
            reason := "ComponentProvisioning", message := "decode error" })
        p.finalizers hdel hcmIdem hcompIdem rfl rfl hd
        (status_chain_stable p.status cout.ready (cout.total - cout.ready)
          { ctype := CondType.componentAvailable, status := false,
            reason := "ComponentProvisioning", message := "decode error" }
          (by decide))
    | false =>
      cases hk : cout.ok with
      | false =>
        have hn := reconcileNormal_requeue cfg p s cout hc hd hk
        have hrec := reconcile_normal_eq2 cfg s p p _ _ _ hp hdel hn hp
        have hout := Option.some.inj (h.symm.trans hrec)
        subst hout
        dsimp only
        exact normal_second_requeue cfg p (reconcileConfigmap cfg p s.configmaps)
          cout.services cout.yurtappsets cout
          (setPACondition
            { setPACondition p.status
                { ctype := CondType.configmapAvailable, status := true,
                  reason := "", message := "" } with
              readyComponentNum := cout.ready,
              unreadyComponentNum := cout.total - cout.ready }
            { ctype := CondType.componentAvailable, status := false,
              reason := "ComponentProvisioning", message := "" })
          p.finalizers hdel hcmIdem hcompIdem rfl rfl hd hk
          (status_chain_stable p.status cout.ready (cout.total - cout.ready)
            { ctype := CondType.componentAvailable, status := false,
              reason := "ComponentProvisioning", message := "" }
            (by decide))
      | true =>
        have hn := reconcileNormal_okBranch cfg p s cout hc hd hk
        have hrec := reconcile_normal_eq2 cfg s p
          { p with finalizers := (addFinalizer p).finalizers } _ _ _ hp hdel hn rfl
        have hout := Option.some.inj (h.symm.trans hrec)
        subst hout
        dsimp only
        exact normal_second_ok cfg p (reconcileConfigmap cfg p s.configmaps)
          cout.services cout.yurtappsets cout
          { setPACondition
              { setPACondition p.status
                  { ctype := CondType.configmapAvailable, status := true,
                    reason := "", message := "" } with
                readyComponentNum := cout.ready,
                unreadyComponentNum := cout.total - cout.ready }
              { ctype := CondType.componentAvailable, status := true,
                reason := "", message := "" } with ready := true }
          (addFinalizer p).finalizers hdel hcmIdem hcompIdem rfl rfl hd hk
          (addFinalizer_contains p)
          (status_chain_stable_ok p.status cout.ready (cout.total - cout.ready))

theorem reconcile_idem_delete (cfg : ControllerConfig) (s : ClusterState)
    (p : PlatformAdmin) (out : ReconcileOutcome)
    (hp : s.parent = some p) (hdel : p.deletionRequested = true)
    (hWF : stateWFb s = true)
    (h : reconcile cfg s = some out) :
    reconcile cfg out.state = some out := by
  obtain ⟨_, _, _, hWpl, hWnd⟩ := stateWF_parts s p hp hWF
  cases hdes : desiredComponents cfg p with
  | error e =>
    have hD := reconcileDelete_decodeErr cfg (fun _ => true) p s e hdes
    have hrec := reconcile_delete_eq cfg s p s RResult.err hp hdel hD
    have hout := Option.some.inj (h.symm.trans hrec)
    subst hout
    dsimp only
    exact hrec
  | ok desired =>
    cases hloop : reconcileDeleteLoop p.poolName (fun _ => true)
        (desired.map (fun c => c.name)) s.yurtappsets with
    | none =>
      rw [reconcile_delete_none_eq cfg s p hp hdel
        (reconcileDelete_panic cfg (fun _ => true) p s desired hdes hloop)] at h
      cases h
    | some pr =>
      obtain ⟨yass', flag⟩ := pr
      have hflag : flag = true :=
        reconcileDeleteLoop_allOk_flag p.poolName (desired.map (fun c => c.name))
          s.yurtappsets yass' flag hloop
      subst hflag
      have hD := reconcileDelete_ok cfg (fun _ => true) p s desired yass' hdes hloop
      have hrec := reconcile_delete_eq cfg s p _ RResult.ok hp hdel hD
      have hout := Option.some.inj (h.symm.trans hrec)
      subst hout
      dsimp only
      have hnd' : (yass'.map (fun y => y.name)).Nodup := by
        rw [reconcileDeleteLoop_names p.poolName (fun _ => true)
          (desired.map (fun c => c.name)) s.yurtappsets yass' true hloop]
        exact hWnd
      have hclean : ∀ nm ∈ desired.map (fun c => c.name),
          yassClean p.poolName nm yass' :=
        reconcileDeleteLoop_ok_clean p.poolName (fun _ => true)
          (desired.map (fun c => c.name)) s.yurtappsets yass' hWpl hloop
      have hfil : (p.finalizers.filter
          (fun g => !(g == platformAdminFinalizer))).filter
          (fun g => !(g == platformAdminFinalizer)) =
          p.finalizers.filter (fun g => !(g == platformAdminFinalizer)) := by
        rw [List.filter_filter]
        apply List.filter_congr
        intro a _
        exact Bool.and_self _
      exact delete_second cfg p s.configmaps s.services yass' desired
        (p.finalizers.filter (fun g => !(g == platformAdminFinalizer)))
        hdel hdes hnd' hclean hfil

/-- C1: reconciling is idempotent - for a well-formed cluster state with no
external changes between passes, feeding the outcome state of one reconcile
pass back into reconcile reproduces exactly the same outcome (state, terminal
result and status-persistence flag): reconcile(reconcile(s)) == reconcile(s),
with no duplicate mutations of child resources, pools, owner references,
finalizers or status conditions. -/
theorem claim_C1_reconcile_idempotent (cfg : ControllerConfig) (s : ClusterState)
    (out : ReconcileOutcome) (hWF : stateWFb s = true)
    (h : reconcile cfg s = some out) :
    reconcile cfg out.state = some out := by
  cases hp : s.parent with
  | none =>
    have hrec := reconcile_none_eq cfg s hp
    have hout := Option.some.inj (h.symm.trans hrec)
    subst hout
    dsimp only
    exact hrec
  | some p =>
    cases hdel : p.deletionRequested with
    | true => exact reconcile_idem_delete cfg s p out hp hdel hWF h
    | false => exact reconcile_idem_normal cfg s p out hp hdel hWF h

/-- Witness for C1: a concrete well-formed state on which the first pass
succeeds and the second pass reproduces its outcome. -/
theorem claim_C1_reconcile_idempotent_witness :
    stateWFb sNorm = true ∧
    ∃ out, reconcile cfgEmpty sNorm = some out ∧
      reconcile cfgEmpty out.state = some out := by
  refine ⟨by decide, ?_⟩
  cases hr : reconcile cfgEmpty sNorm with
  | none => exact absurd hr (by decide)
  | some out =>
    exact ⟨out, rfl,
      claim_C1_reconcile_idempotent cfgEmpty sNorm out (by decide) hr⟩

/-- C2 counterexample: a parent whose fetch succeeds but which is marked for
deletion exits the pass successfully (finalizer removed) with NO status
update issued - an exit path other than not-found on which status is not
persisted, refuting the claim as stated. -/
theorem claim_C2_deletion_skips_status :
    (sDelEmpty.parent).isSome = true ∧
    (reconcile cfgDel sDelEmpty).map (fun o => o.statusPersisted) = some false ∧
    (reconcile cfgDel sDelEmpty).map (fun o => o.result) = some RResult.ok :=
  ⟨rfl, by decide, by decide⟩

end PA
